import Mathlib

/-!
# Smart Study Assistant: scheduler, session engine, item generator and chat relay

A shallow embedding of `src/client/src/App.jsx` and of the chat relay of
`src/server/server.js`.

Modelling conventions.

* A JavaScript string is its sequence of UTF-16 code units (`JSString`); `length`,
  `split`, `trim` and `replace` all work on code units.
* A JavaScript number is read in two ways. In `Item`, `updateItemSchedule` and the
  session engine it is an exact rational (`ℚ`), which is all that the branches taken, the
  counts, the copied fields and the shape of the ease formula depend on. Where rounding
  or overflow decides the outcome (the interval of line 175, the invariants of interval
  and ease factor), lines 172 to 182 are computed in IEEE binary64 by
  `updateItemSchedule64`: a double is its exact rational value, an infinity or NaN, and
  each operation rounds to the nearest double, ties to even.
  `Math.round x` is `⌊x + 1/2⌋`, `Math.floor` and `Math.ceil` are floor and ceiling.
* `Math.random()` is a rational in `[0, 1)` supplied by the environment (`Unit01`);
  `new Date()` and `Date.now()` are supplied by the environment as well, a date
  being a rational number of days.
* React state is passed explicitly: a handler maps the state it closes over to the
  state its setters produce.
-/

namespace SmartStudy

/-! ## Values -/

/-- A JavaScript string: the list of its UTF-16 code units. -/
abbrev JSString := List Nat

/-- The code units of an ASCII string literal of the source. -/
def lit (s : String) : JSString := s.toList.map Char.toNat

/-- The values that `correctAnswer`, `selectedAnswer` and `userAnswer` range over. -/
inductive JSVal where
  | undefined : JSVal
  | null : JSVal
  | bool (b : Bool) : JSVal
  | str (s : JSString) : JSVal
  deriving DecidableEq, Repr

/-- Strict equality `a === b` on `JSVal`: same type and same value. -/
def JSVal.strictEq (a b : JSVal) : Bool := decide (a = b)

/-- A study item: the object literal built in `generateStudyMaterials`; a field the
item's kind does not set is `none` (or `JSVal.undefined`). -/
structure Item where
  id : ℚ
  type : JSString
  difficulty : JSString
  nextReview : ℚ
  interval : ℚ
  easeFactor : ℚ
  repetitions : ℚ
  question : Option JSString
  answer : Option JSString
  options : Option (List JSString)
  correctAnswer : JSVal
  explanation : Option JSString
  deriving DecidableEq

/-! ## Scheduler -/

/-- The function `Math.round`: the nearest integer, halves rounded up. -/
def mathRound (x : ℚ) : ℤ := Rat.floor (x + 1 / 2)

/-- The function `updateItemSchedule(item, quality)`; `now` is the value of `new Date()`. -/
def updateItemSchedule (now : ℚ) (item : Item) (quality : ℚ) : Item :=
  let interval := item.interval
  let repetitions := item.repetitions
  let easeFactor := item.easeFactor
  let (interval, repetitions) :=
    if quality ≥ 3 then
      ((if repetitions = 0 then 1 else if repetitions = 1 then 6
          else ((mathRound (interval * easeFactor) : ℤ) : ℚ)),
        repetitions + 1)
    else
      ((1 : ℚ), (0 : ℚ))
  let easeFactor :=
    max (13 / 10) (easeFactor + (1 / 10 - (5 - quality) * (8 / 100 + (5 - quality) * (2 / 100))))
  let nextReview := now + interval
  { item with
    interval := interval, repetitions := repetitions, easeFactor := easeFactor,
    nextReview := nextReview }

/-! ## Session engine -/

/-- The `studyStats` object. -/
structure StudyStats where
  itemsStudied : Nat
  correctAnswers : Nat
  streak : Nat
  deriving DecidableEq, Repr

/-- The values of `currentPage`. -/
inductive Page where
  | home : Page
  | study : Page
  | dashboard : Page
  deriving DecidableEq, Repr

/-- The React state that `handleRating` reads or sets. -/
structure AppState where
  currentPage : Page
  studyMaterials : List Item
  currentItem : Nat
  showAnswer : Bool
  selectedAnswer : JSVal
  studyStats : StudyStats

/-- Lines 192-200 of `handleRating`: the pair `(isCorrect, quality)` reached from the
`quality` argument and `userAnswer` for the item at the cursor. -/
def deriveRating (currentMaterial : Item) (quality : ℚ) (userAnswer : JSVal) : Bool × ℚ :=
  let isCorrect := decide (quality ≥ 3)
  if currentMaterial.type = lit "mcq" then
    let isCorrect := userAnswer.strictEq currentMaterial.correctAnswer
    (isCorrect, if isCorrect then 4 else 2)
  else if currentMaterial.type = lit "truefalse" then
    let isCorrect := userAnswer.strictEq currentMaterial.correctAnswer
    (isCorrect, if isCorrect then 4 else 2)
  else
    (isCorrect, quality)

/-- The handler `handleRating(quality, userAnswer)`; `now` is the value of `new Date()` inside
`updateItemSchedule`. The result is `none` when `studyMaterials[currentItem]` is
`undefined`, where reading `.type` throws. -/
def handleRating (now : ℚ) (s : AppState) (quality : ℚ) (userAnswer : JSVal) :
    Option AppState :=
  match s.studyMaterials.get? s.currentItem with
  | none => none
  | some currentMaterial =>
    let (isCorrect, quality) := deriveRating currentMaterial quality userAnswer
    let updatedItem := updateItemSchedule now currentMaterial quality
    let newMaterials := s.studyMaterials.set s.currentItem updatedItem
    let newStats : StudyStats :=
      { itemsStudied := s.studyStats.itemsStudied + 1,
        correctAnswers := s.studyStats.correctAnswers + (if isCorrect then 1 else 0),
        streak := if isCorrect then s.studyStats.streak + 1 else 0 }
    if s.currentItem < s.studyMaterials.length - 1 then
      some { s with
        studyMaterials := newMaterials, studyStats := newStats, showAnswer := false,
        selectedAnswer := JSVal.null, currentItem := s.currentItem + 1 }
    else
      some { s with
        studyMaterials := newMaterials, studyStats := newStats, showAnswer := false,
        selectedAnswer := JSVal.null, currentPage := Page.dashboard }

/-- One rating event: the instant of the review, the `quality` argument and the
`userAnswer` argument of `handleRating`. -/
structure Rating where
  now : ℚ
  quality : ℚ
  userAnswer : JSVal

/-- A sequence of ratings, each handled in the state the previous one left. -/
def runRatings : AppState → List Rating → Option AppState
  | s, [] => some s
  | s, r :: rs =>
    match handleRating r.now s r.quality r.userAnswer with
    | none => none
    | some s' => runRatings s' rs

/-- The `isCorrect` flag of each rating of a sequence, in order. -/
def ratingFlags : AppState → List Rating → List Bool
  | _, [] => []
  | s, r :: rs =>
    match s.studyMaterials.get? s.currentItem, handleRating r.now s r.quality r.userAnswer with
    | some currentMaterial, some s' =>
      (deriveRating currentMaterial r.quality r.userAnswer).1 :: ratingFlags s' rs
    | _, _ => []

/-- The number of consecutive `true` flags at the end of a list. -/
def trailingCorrect (flags : List Bool) : Nat :=
  (flags.reverse.takeWhile (fun b => b)).length

/-! ## Strings -/

/-- The characters of the class `[.!?]`. -/
def isTerminator (c : Nat) : Bool := c = 46 || c = 33 || c = 63

/-- The call `s.split(/[.!?]+/)`: the pieces of `s` between maximal runs of terminators; a run
at the start or at the end of `s` leaves an empty piece there. The flag tells
whether the previous code unit was a terminator. -/
def splitOnRuns : Bool → JSString → List JSString
  | _, [] => [[]]
  | inRun, c :: cs =>
    if isTerminator c then
      if inRun then splitOnRuns true cs else [] :: splitOnRuns true cs
    else
      match splitOnRuns false cs with
      | [] => [[c]]
      | w :: ws => (c :: w) :: ws

/-- The call `text.split(/[.!?]+/)` of line 11. -/
def splitSentences (text : JSString) : List JSString := splitOnRuns false text

/-- White space and line terminators, the code units that `trim` strips. -/
def isWhiteSpace (c : Nat) : Bool :=
  c = 9 || c = 10 || c = 11 || c = 12 || c = 13 || c = 32 || c = 160 || c = 5760 ||
  (8192 ≤ c && c ≤ 8202) || c = 8232 || c = 8233 || c = 8239 || c = 8287 || c = 12288 ||
  c = 65279

/-- The call `s.trim()`. -/
def trim (s : JSString) : JSString :=
  ((s.dropWhile isWhiteSpace).reverse.dropWhile isWhiteSpace).reverse

/-- The call `s.split(' ')`: the pieces of `s` between single spaces. -/
def splitSpace : JSString → List JSString
  | [] => [[]]
  | c :: cs =>
    if c = 32 then [] :: splitSpace cs
    else
      match splitSpace cs with
      | [] => [[c]]
      | w :: ws => (c :: w) :: ws

/-- The call `s.replace(pat, rep)` for a string pattern and a replacement without `$`: the
first occurrence of `pat` in `s` is replaced, and `s` is returned when there is none. -/
def replaceFirst (pat rep : JSString) : JSString → JSString
  | [] => if pat = [] then rep else []
  | c :: cs =>
    if pat.isPrefixOf (c :: cs) then rep ++ (c :: cs).drop pat.length
    else c :: replaceFirst pat rep cs

/-! ## Item generator -/

/-- A value of `Math.random()`. -/
structure Unit01 where
  val : ℚ
  nonneg : 0 ≤ val
  lt_one : val < 1

/-- What the environment decides during one iteration of the inner loop of
`generateStudyMaterials`. -/
structure Draw where
  /-- The value of `Math.random()` at line 17. -/
  pick : Unit01
  /-- The value of `Date.now()` at line 24. -/
  dateNow : ℚ
  /-- The value of `Math.random()` at line 24. -/
  idRand : Unit01
  /-- The value of `Math.random()` at line 26. -/
  diffRand : Unit01
  /-- The value of `new Date()` at line 27. -/
  newDate : ℚ
  /-- The order in which `sort(() => Math.random() - 0.5)` of line 38 leaves the array:
  some rearrangement of it. -/
  shuffle : (l : List JSString) → { l' : List JSString // l'.Perm l }
  /-- The value of `Math.random()` at line 41. -/
  coin : Unit01

/-- The index `Math.floor(r * n)` for a value `r` of `Math.random()`, as an index. -/
def randomIndex (r : Unit01) (n : Nat) : Nat := Int.toNat (Rat.floor (r.val * n))

/-- Line 11: the sentences of `text` whose trimmed length exceeds 20. -/
def eligibleSentences (text : JSString) : List JSString :=
  (splitSentences text).filter (fun s => decide ((trim s).length > 20))

/-- Line 13: `Math.ceil(count / types.length)`. For an empty `types` the division by zero
is never used, since the loop over `types` has no iteration. -/
def itemsPerType (count : Nat) (types : List JSString) : Nat :=
  ⌈(count : ℚ) / (types.length : ℚ)⌉₊

/-- Line 21: `words[Math.floor(words.length / 2)]`. -/
def keywordOf (words : List JSString) : JSString := words.getD (words.length / 2) []

/-- Lines 21-45: the item built from `sentence` and its `words`. -/
def buildItem (d : Draw) (type sentence : JSString) (words : List JSString) : Item :=
  let keyword := keywordOf words
  let item : Item :=
    { id := d.dateNow + d.idRand.val
      type := type
      difficulty := [lit "easy", lit "medium", lit "hard"].getD (randomIndex d.diffRand 3) []
      nextReview := d.newDate
      interval := 1
      easeFactor := 5 / 2
      repetitions := 0
      question := none
      answer := none
      options := none
      correctAnswer := JSVal.undefined
      explanation := none }
  if type = lit "flashcard" then
    { item with
      question := some (lit "What is " ++ keyword ++ lit " in the context of this topic?")
      answer := some sentence }
  else if type = lit "mcq" then
    { item with
      question := some (lit "Which statement about " ++ keyword ++ lit " is correct?")
      options := some (d.shuffle [sentence, keyword ++ lit " is unrelated",
        lit "Opposite meaning", lit "Different concept"]).val
      correctAnswer := JSVal.str sentence }
  else if type = lit "truefalse" then
    let isTrue := decide (d.coin.val > 1 / 2)
    { item with
      question := some (if isTrue then sentence else replaceFirst keyword (lit "incorrect") sentence)
      correctAnswer := JSVal.bool isTrue
      explanation := some (if isTrue then lit "This is true." else lit "False. Correct: " ++ sentence) }
  else item

/-- Lines 17-48: one iteration of the inner loop, `materials` being the array so far. -/
def generateStep (d : Draw) (sentences : List JSString) (type : JSString)
    (materials : List Item) : List Item :=
  let sentence := trim (sentences.getD (randomIndex d.pick sentences.length) [])
  let words := splitSpace sentence
  if words.length > 5 then materials ++ [buildItem d type sentence words] else materials

/-- The function `generateStudyMaterials(text, types, count)`; `env t i` is what the environment
decides in iteration `i` of the inner loop for the entry of `types` at index `t`. -/
def generateStudyMaterials (env : Nat → Nat → Draw) (text : JSString)
    (types : List JSString) (count : Nat) : List Item :=
  let sentences := eligibleSentences text
  let itemsPerType := itemsPerType count types
  types.enum.foldl
    (fun materials tt =>
      (List.range (min itemsPerType sentences.length)).foldl
        (fun materials i => generateStep (env tt.1 i) sentences tt.2 materials)
        materials)
    []

/-! ## Derived definitions and sample data -/

/-- A sample item: a flashcard as `generateStudyMaterials` initialises it. -/
def sampleItem : Item :=
  { id := 0, type := lit "flashcard", difficulty := lit "easy", nextReview := 0,
    interval := 1, easeFactor := 5 / 2, repetitions := 0,
    question := some (lit "What is a in the context of this topic?"),
    answer := some (lit "a"), options := none, correctAnswer := JSVal.undefined,
    explanation := none }

/-- The item that one iteration of the inner loop pushes, if it pushes one. -/
def stepItem (d : Draw) (sentences : List JSString) (type : JSString) : Option Item :=
  let sentence := trim (sentences.getD (randomIndex d.pick sentences.length) [])
  let words := splitSpace sentence
  if words.length > 5 then some (buildItem d type sentence words) else none

/-- The items pushed for the entry of `types` at index `t`. -/
def itemsForType (env : Nat → Nat → Draw) (sentences : List JSString) (n : Nat)
    (t : Nat) (type : JSString) : List Item :=
  (List.range n).filterMap (fun i => stepItem (env t i) sentences type)

/-- A number that is a positive integer. -/
def IsPositiveInteger (x : ℚ) : Prop := ∃ n : ℤ, 1 ≤ n ∧ x = n

/-- The statistics after one rating whose answer was correct or not. -/
def statsAfter (stats : StudyStats) (isCorrect : Bool) : StudyStats :=
  { itemsStudied := stats.itemsStudied + 1,
    correctAnswers := stats.correctAnswers + (if isCorrect then 1 else 0),
    streak := if isCorrect then stats.streak + 1 else 0 }
/-- A sample multiple-choice item whose correct answer is the string `yes`. -/
def sampleMcq : Item :=
  { sampleItem with
    type := lit "mcq", answer := none,
    options := some [lit "yes", lit "no", lit "Opposite meaning", lit "Different concept"],
    correctAnswer := JSVal.str (lit "yes") }

/-- A sample session: the sample multiple-choice item and the sample flashcard, the
cursor on the first. -/
def sampleState : AppState :=
  { currentPage := Page.study, studyMaterials := [sampleMcq, sampleItem], currentItem := 0,
    showAnswer := true, selectedAnswer := JSVal.str (lit "yes"),
    studyStats := { itemsStudied := 0, correctAnswers := 0, streak := 0 } }

/-- The value 0 of `Math.random()`. -/
def zero01 : Unit01 := ⟨0, le_refl 0, by norm_num⟩

/-- A sample iteration: every `Math.random()` is 0 and the sort keeps the order. -/
def sampleDraw : Draw :=
  { pick := zero01, dateNow := 0, idRand := zero01, diffRand := zero01, newDate := 0,
    shuffle := fun l => ⟨l, List.Perm.refl l⟩, coin := zero01 }

/-- A sample environment: every iteration is `sampleDraw`. -/
def sampleEnv : Nat → Nat → Draw := fun _ _ => sampleDraw

/-- A text whose only eligible sentence has 5 words. -/
def fiveWordText : JSString := lit "This sentence has five words. Short one."

/-- A sentence of 7 words whose middle word, `is`, also occurs inside its first word. -/
def catSentence : JSString := lit "This cat really is quite a pet"

/-- A text whose only eligible sentence is `catSentence`. -/
def catText : JSString := lit "This cat really is quite a pet. Short one."

/-- The sentence with its pivot keyword replaced as C10 words it: the word at the middle
index, `floor(wordCount / 2)`, becomes `incorrect`, every other word is kept, and the words
are joined by single spaces again. -/
def replacePivot (sentence : JSString) : JSString :=
  let words := splitSpace sentence
  (lit " ").intercalate (words.set (words.length / 2) (lit "incorrect"))

/-! ## Chat relay (`src/server/server.js`) -/

/-- One chunk of the upstream stream: `chunk.message?.content`, which is `none` when the
message or its content is absent, and `chunk.done`. -/
structure Chunk where
  content : Option JSString
  done : Bool
  deriving DecidableEq, Repr

/-- What `ollama.chat` delivers: the chunks it yields, in order, and then either the end
of the stream (`none`) or a thrown error with its `message` (`some`). A rejected
`ollama.chat` call is a failure after no chunk. -/
structure Upstream where
  chunks : List Chunk
  failure : Option JSString
  deriving DecidableEq, Repr

/-- One event written with `res.write`: the object passed to `JSON.stringify`. -/
inductive Event where
  | data (content fullResponse : JSString) (done : Bool) : Event
  | error (error detail : JSString) : Event
  deriving DecidableEq, Repr

/-- The `done` field of an event; the error event is written with `done: true`. -/
def Event.done : Event → Bool
  | Event.data _ _ d => d
  | Event.error _ _ => true

/-- A terminal event: an error event, or a data event with `done = true` and empty
`content`. -/
def Event.isTerminal : Event → Bool
  | Event.data content _ d => d && decide (content = [])
  | Event.error _ _ => true

/-- What the handler does with `res`: the 400 answer, or the events written so far and
whether `res.end()` was called. -/
inductive Reply where
  | badRequest (error : JSString) : Reply
  | stream (events : List Event) (ended : Bool) : Reply
  deriving DecidableEq, Repr

/-- Truthiness of `chunk.message?.content`: a non-empty string. -/
def contentTruthy (content : Option JSString) : Bool :=
  match content with
  | none => false
  | some s => decide (s ≠ [])

/-- The `for await` loop and the `catch` block: `fullResponse` and `written` are the
accumulated response and the events written so far; the result is the events written
when the handler returns and whether `res.end()` was called. -/
def streamLoop : List Chunk → Option JSString → JSString → List Event → List Event × Bool
  | [], none, _, written => (written, false)
  | [], some detail, _, written =>
    (written ++ [Event.error (lit "Error talking to Ollama") detail], true)
  | chunk :: rest, failure, fullResponse, written =>
    let (fullResponse, written) :=
      if contentTruthy chunk.content then
        let fullResponse := fullResponse ++ chunk.content.getD []
        (fullResponse, written ++ [Event.data (chunk.content.getD []) fullResponse chunk.done])
      else (fullResponse, written)
    if chunk.done then (written ++ [Event.data [] fullResponse true], true)
    else streamLoop rest failure fullResponse written

/-- The handler of `POST /api/chat-stream`; `message` is `req.body.message`, `none` when
absent. -/
def chatStream (message : Option JSString) (upstream : Upstream) : Reply :=
  if contentTruthy message then
    let r := streamLoop upstream.chunks upstream.failure [] []
    Reply.stream r.1 r.2
  else Reply.badRequest (lit "Message is required")

/-- The chunks the loop receives: those up to and including the first one with
`done = true`. -/
def receivedChunks : List Chunk → List Chunk
  | [] => []
  | chunk :: rest => if chunk.done then [chunk] else chunk :: receivedChunks rest

/-- The concatenation of the contents of a list of chunks. -/
def concatContents (chunks : List Chunk) : JSString :=
  (chunks.map (fun chunk => chunk.content.getD [])).flatten
/-- The events of a reply; the 400 answer writes none. -/
def Reply.events : Reply → List Event
  | Reply.badRequest _ => []
  | Reply.stream events _ => events

/-- An upstream whose only chunk carries both content and `done = true`. -/
def doneWithContent : Upstream := ⟨[⟨some (lit "Hi"), true⟩], none⟩

/-- An upstream that ends after one content chunk, with no `done` chunk and no failure. -/
def endsWithoutDone : Upstream := ⟨[⟨some (lit "Hi"), false⟩], none⟩

/-- An upstream of two content chunks and a final empty `done` chunk. -/
def sampleUpstream : Upstream :=
  ⟨[⟨some (lit "Hi"), false⟩, ⟨some (lit " there"), false⟩, ⟨some [], true⟩], none⟩

/-- A text of short fragments, stray punctuation, two non-ASCII code units and a lone
surrogate. -/
def strayText : JSString := lit "Too short. ?!.. " ++ [233, 19990, 55357] ++ lit " !"

/-- A sample item that has been reviewed: interval 15 after three repetitions. -/
def reviewedItem : Item := { sampleItem with interval := 15, repetitions := 3 }

/-- A sample item whose ease factor is at the floor 1.3. -/
def floorItem : Item := { sampleItem with easeFactor := 13 / 10 }

/-! ## IEEE binary64 arithmetic

The scheduler multiplies and adds in double precision (lines 175 and 182). A double is its
exact rational value, or an infinity, or NaN; the sign of zero is not modelled. -/

/-- A JavaScript number as an IEEE binary64 value. -/
inductive F64 where
  | fin (q : ℚ) : F64
  | posInf : F64
  | negInf : F64
  | nan : F64
  deriving DecidableEq

/-- The integer nearest to `x`, a tie going to the even one. -/
def roundTiesEven (x : ℚ) : ℤ :=
  if x - ⌊x⌋ < 1 / 2 then ⌊x⌋
  else if 1 / 2 < x - ⌊x⌋ then ⌊x⌋ + 1
  else if ⌊x⌋ % 2 = 0 then ⌊x⌋ else ⌊x⌋ + 1

/-- The exponent of the spacing of the doubles around `q`: 52 below the binade of `q`,
and never below the subnormal spacing `2 ^ (-1074)`. -/
def quantum (q : ℚ) : ℤ := max (-1074) (Int.log 2 |q| - 52)

/-- The double nearest to the real number `q`, ties to even; a result of magnitude
`2 ^ 1024` or more is an infinity. -/
def roundF64 (q : ℚ) : F64 :=
  let r : ℚ := (roundTiesEven (q / (2 : ℚ) ^ quantum q) : ℚ) * (2 : ℚ) ^ quantum q
  if (2 : ℚ) ^ (1024 : ℤ) ≤ |r| then (if 0 < q then F64.posInf else F64.negInf)
  else F64.fin r

/-- Negation of a double. -/
def F64.neg : F64 → F64
  | F64.fin q => F64.fin (-q)
  | F64.posInf => F64.negInf
  | F64.negInf => F64.posInf
  | F64.nan => F64.nan

/-- The sum `a + b` of doubles. -/
def F64.add : F64 → F64 → F64
  | F64.nan, _ => F64.nan
  | _, F64.nan => F64.nan
  | F64.fin a, F64.fin b => roundF64 (a + b)
  | F64.posInf, F64.negInf => F64.nan
  | F64.negInf, F64.posInf => F64.nan
  | F64.posInf, _ => F64.posInf
  | F64.negInf, _ => F64.negInf
  | F64.fin _, F64.posInf => F64.posInf
  | F64.fin _, F64.negInf => F64.negInf

/-- The difference `a - b` of doubles. -/
def F64.sub (a b : F64) : F64 := F64.add a (F64.neg b)

/-- The product of an infinity, positive or negative, and a double. -/
def F64.mulInf (positive : Bool) : F64 → F64
  | F64.nan => F64.nan
  | F64.fin q =>
    if q = 0 then F64.nan
    else if 0 < q then (if positive then F64.posInf else F64.negInf)
    else (if positive then F64.negInf else F64.posInf)
  | F64.posInf => if positive then F64.posInf else F64.negInf
  | F64.negInf => if positive then F64.negInf else F64.posInf

/-- The product `a * b` of doubles. -/
def F64.mul : F64 → F64 → F64
  | F64.fin a, F64.fin b => roundF64 (a * b)
  | F64.posInf, b => F64.mulInf true b
  | F64.negInf, b => F64.mulInf false b
  | a, F64.posInf => F64.mulInf true a
  | a, F64.negInf => F64.mulInf false a
  | F64.nan, _ => F64.nan
  | _, F64.nan => F64.nan

/-- The comparison `a <= b` of doubles, false when either is NaN. -/
def F64.le : F64 → F64 → Bool
  | F64.nan, _ => false
  | _, F64.nan => false
  | F64.negInf, _ => true
  | _, F64.posInf => true
  | F64.fin a, F64.fin b => decide (a ≤ b)
  | F64.posInf, _ => false
  | F64.fin _, F64.negInf => false

/-- The call `Math.max(a, b)`: NaN when either argument is NaN. -/
def F64.max (a b : F64) : F64 :=
  match a, b with
  | F64.nan, _ => F64.nan
  | _, F64.nan => F64.nan
  | a, b => if F64.le a b then b else a

/-- The call `Math.round(x)` on a double: the nearest integer, a half rounded up; infinities
and NaN are returned as they are. -/
def F64.round : F64 → F64
  | F64.fin q => F64.fin (⌊q + 1 / 2⌋ : ℤ)
  | x => x

/-- Strict equality `a === b` of doubles: NaN equals nothing. -/
def F64.strictEq : F64 → F64 → Bool
  | F64.nan, _ => false
  | _, F64.nan => false
  | a, b => decide (a = b)

/-- The double that a decimal literal of the source denotes. -/
def double (q : ℚ) : F64 := roundF64 q

/-- The variables `interval`, `repetitions` and `easeFactor` that `updateItemSchedule`
takes from the item at line 172 and writes back at line 187, as doubles. -/
structure Schedule64 where
  interval : F64
  repetitions : F64
  easeFactor : F64
  deriving DecidableEq

/-- Lines 172 to 182 of `updateItemSchedule` in double precision. -/
def updateItemSchedule64 (s : Schedule64) (quality : F64) : Schedule64 :=
  let interval := s.interval
  let repetitions := s.repetitions
  let easeFactor := s.easeFactor
  let (interval, repetitions) :=
    if F64.le (F64.fin 3) quality then
      ((if F64.strictEq repetitions (F64.fin 0) then F64.fin 1
          else if F64.strictEq repetitions (F64.fin 1) then F64.fin 6
          else F64.round (F64.mul interval easeFactor)),
        F64.add repetitions (F64.fin 1))
    else
      (F64.fin 1, F64.fin 0)
  let easeFactor :=
    F64.max (double (13 / 10))
      (F64.add easeFactor
        (F64.sub (double (1 / 10))
          (F64.mul (F64.sub (F64.fin 5) quality)
            (F64.add (double (8 / 100)) (F64.mul (F64.sub (F64.fin 5) quality)
              (double (2 / 100)))))))
  { interval := interval, repetitions := repetitions, easeFactor := easeFactor }

/-- The scheduling variables of an item, read as doubles. -/
def Item.schedule64 (item : Item) : Schedule64 :=
  { interval := F64.fin item.interval, repetitions := F64.fin item.repetitions,
    easeFactor := F64.fin item.easeFactor }

/-- A sequence of reviews of one item in double precision, one quality per review. -/
def reviews64 (s : Schedule64) (qualities : List F64) : Schedule64 :=
  qualities.foldl updateItemSchedule64 s
/-- A double that is a positive integer or `Infinity`. -/
def IsPositiveIntegerOrInfinity (x : F64) : Prop :=
  x = F64.posInf ∨ ∃ i, IsPositiveInteger i ∧ x = F64.fin i
/-- The invariant of the scheduling variables along a sequence of reviews: the interval is
a positive integer or `Infinity`, and the ease factor is a number between 1.3 and
`2 ^ 100`. -/
def ScheduleInvariant (s : Schedule64) : Prop :=
  IsPositiveIntegerOrInfinity s.interval ∧
    ∃ e, s.easeFactor = F64.fin e ∧ 5854679515581645 / 4503599627370496 ≤ e ∧
      e ≤ (2 : ℚ) ^ (100 : ℤ)

/-- An item of interval `2 ^ 1023`, a positive integer, with two repetitions behind it and
the initial ease factor 2.5. -/
def hugeSchedule : Schedule64 :=
  { interval := F64.fin ((2 : ℚ) ^ (1023 : ℤ)), repetitions := F64.fin 2,
    easeFactor := F64.fin (5 / 2) }
/-- The scheduling variables of a freshly generated item. -/
def freshSchedule : Schedule64 :=
  { interval := F64.fin 1, repetitions := F64.fin 0, easeFactor := F64.fin (5 / 2) }

/-- The state of an item rated Easy again and again: at least two repetitions, the ease
factor still 2.5, and an interval that is `Infinity` or at least `2 ^ k`. -/
def EasyRun (k : Nat) (s : Schedule64) : Prop :=
  F64.le (F64.fin 2) s.repetitions = true ∧ s.easeFactor = F64.fin (5 / 2) ∧
    (s.interval = F64.posInf ∨
      ∃ i, s.interval = F64.fin i ∧ (2 : ℚ) ^ k ≤ i ∧ i ≤ (2 : ℚ) ^ (1024 : ℕ))

/-- The relation between a string `a` and a string `s` that `a = s.trim()` states: `s` is
`a` between two runs of white space, and `a` neither starts nor ends with white space. -/
def IsTrimOf (a s : JSString) : Prop :=
  ∃ l r, s = l ++ a ++ r ∧ (∀ c ∈ l, isWhiteSpace c = true) ∧
    (∀ c ∈ r, isWhiteSpace c = true) ∧
    (∀ c, a.head? = some c → isWhiteSpace c = false) ∧
    (∀ c, a.getLast? = some c → isWhiteSpace c = false)

/-- A text whose second fragment is `catSentence` between a space, a line feed and a tab
in front and a no-break space and a space behind. -/
def spacedText : JSString :=
  lit "Short one. " ++ [10, 9] ++ lit "This cat really is quite a pet" ++ [160, 32] ++ lit "!?"

/-- The words of a sentence: its non-empty pieces between spaces. -/
def wordsOf (sentence : JSString) : List JSString :=
  (splitSpace sentence).filter (fun w => decide (w ≠ []))

/-- A text of four words, `The`, `quick`, `brown` and `fox`, two of the gaps being double
spaces. -/
def doubleSpaceText : JSString := lit "The  quick  brown fox."

/-! # Theorems -/

/-! ## Scheduler: unfolding lemmas -/

theorem updateItemSchedule_pass (now : ℚ) (item : Item) (quality : ℚ) (h : 3 ≤ quality) :
    updateItemSchedule now item quality =
      { item with
        interval := if item.repetitions = 0 then 1 else if item.repetitions = 1 then 6
          else ((mathRound (item.interval * item.easeFactor) : ℤ) : ℚ)
        repetitions := item.repetitions + 1
        easeFactor := max (13 / 10) (item.easeFactor +
          (1 / 10 - (5 - quality) * (8 / 100 + (5 - quality) * (2 / 100))))
        nextReview := now + (if item.repetitions = 0 then 1 else if item.repetitions = 1 then 6
          else ((mathRound (item.interval * item.easeFactor) : ℤ) : ℚ)) } := by
  simp only [updateItemSchedule, ge_iff_le, h, if_true]

theorem updateItemSchedule_fail (now : ℚ) (item : Item) (quality : ℚ) (h : quality < 3) :
    updateItemSchedule now item quality =
      { item with
        interval := 1
        repetitions := 0
        easeFactor := max (13 / 10) (item.easeFactor +
          (1 / 10 - (5 - quality) * (8 / 100 + (5 - quality) * (2 / 100))))
        nextReview := now + 1 } := by
  have h' : ¬ (3 ≤ quality) := not_le.mpr h
  simp only [updateItemSchedule, ge_iff_le, h', if_false]

theorem mathRound_eq_floor (x : ℚ) : mathRound x = ⌊x + 1 / 2⌋ := rfl

/-! ## Scheduler: the claims -/

/-- C1: for every item and every quality, inside 0..5 or not, the ease factor that
`updateItemSchedule` returns is `max(1.3, easeFactor + (0.1 - (5 - quality) * (0.08 +
(5 - quality) * 0.02)))` of the item's original ease factor, on the pass path and on the
fail path alike, and so it is never below 1.3. -/
theorem updateItemSchedule_easeFactor (now : ℚ) (item : Item) (quality : ℚ) :
    (updateItemSchedule now item quality).easeFactor =
        max (13 / 10) (item.easeFactor +
          (1 / 10 - (5 - quality) * (8 / 100 + (5 - quality) * (2 / 100)))) ∧
      13 / 10 ≤ (updateItemSchedule now item quality).easeFactor := by
  rcases le_or_lt 3 quality with h | h
  · rw [updateItemSchedule_pass now item quality h]
    exact ⟨rfl, le_max_left _ _⟩
  · rw [updateItemSchedule_fail now item quality h]
    exact ⟨rfl, le_max_left _ _⟩

/-- C2: for every item, a quality of 3 or more makes `updateItemSchedule` return the
item's repetitions plus 1, and a quality below 3 makes it return repetitions 0. -/
theorem updateItemSchedule_repetitions (now : ℚ) (item : Item) (quality : ℚ) :
    (3 ≤ quality →
        (updateItemSchedule now item quality).repetitions = item.repetitions + 1) ∧
      (quality < 3 → (updateItemSchedule now item quality).repetitions = 0) := by
  constructor
  · intro h
    rw [updateItemSchedule_pass now item quality h]
  · intro h
    rw [updateItemSchedule_fail now item quality h]

theorem updateItemSchedule_repetitions_witness :
    (updateItemSchedule 0 sampleItem 4).repetitions = sampleItem.repetitions + 1 ∧
      (updateItemSchedule 0 sampleItem 2).repetitions = 0 :=
  ⟨(updateItemSchedule_repetitions 0 sampleItem 4).1 (by norm_num),
    (updateItemSchedule_repetitions 0 sampleItem 2).2 (by norm_num)⟩

/-- C4 as stated fails: an item whose ease factor is at the floor 1.3, which a fresh item
reaches with four Hard ratings, keeps the ease factor 1.3 on a fail, so the fail leaves it
unchanged. -/
theorem easeFactor_floor_counterexample :
    (updateItemSchedule 0 (updateItemSchedule 0 (updateItemSchedule 0
        (updateItemSchedule 0 sampleItem 2) 2) 2) 2).easeFactor = 13 / 10 ∧
      floorItem.easeFactor = 13 / 10 ∧
      (updateItemSchedule 0 floorItem 2).easeFactor = floorItem.easeFactor := by
  refine ⟨?_, rfl, ?_⟩
  · norm_num [updateItemSchedule, sampleItem]
  · norm_num [updateItemSchedule, floorItem, sampleItem]

/-- C4, amended: for every item, whatever its repetitions, a quality below 3 makes
`updateItemSchedule` return interval 1 and repetitions 0, while the ease factor is still
recomputed by the ease formula: it is not reset, it is lowered whenever it was above the
floor 1.3, and it is 1.3, hence unchanged for an item already at the floor, whenever it was
at most 1.3; every field other than interval, repetitions, easeFactor and nextReview is
returned unchanged. -/
theorem updateItemSchedule_fail_resets (now : ℚ) (item : Item) (quality : ℚ)
    (h : quality < 3) :
    (updateItemSchedule now item quality).interval = 1 ∧
      (updateItemSchedule now item quality).repetitions = 0 ∧
      (updateItemSchedule now item quality).easeFactor =
        max (13 / 10) (item.easeFactor +
          (1 / 10 - (5 - quality) * (8 / 100 + (5 - quality) * (2 / 100)))) ∧
      (13 / 10 < item.easeFactor →
        (updateItemSchedule now item quality).easeFactor < item.easeFactor) ∧
      (item.easeFactor ≤ 13 / 10 →
        (updateItemSchedule now item quality).easeFactor = 13 / 10) ∧
      (updateItemSchedule now item quality).id = item.id ∧
      (updateItemSchedule now item quality).type = item.type ∧
      (updateItemSchedule now item quality).difficulty = item.difficulty ∧
      (updateItemSchedule now item quality).question = item.question ∧
      (updateItemSchedule now item quality).answer = item.answer ∧
      (updateItemSchedule now item quality).options = item.options ∧
      (updateItemSchedule now item quality).correctAnswer = item.correctAnswer ∧
      (updateItemSchedule now item quality).explanation = item.explanation := by
  have hdelta : 1 / 10 - (5 - quality) * (8 / 100 + (5 - quality) * (2 / 100)) < 0 := by
    nlinarith [mul_pos (show (0 : ℚ) < 5 - quality - 2 by linarith)
      (show (0 : ℚ) < 5 - quality by linarith)]
  rw [updateItemSchedule_fail now item quality h]
  refine ⟨rfl, rfl, rfl, fun hef => ?_, fun hef => ?_, rfl, rfl, rfl, rfl, rfl, rfl, rfl, rfl⟩
  · show max (13 / 10) _ < item.easeFactor
    exact max_lt hef (by linarith)
  · show max (13 / 10) _ = 13 / 10
    exact max_eq_left (by linarith)

theorem updateItemSchedule_fail_resets_witness :
    reviewedItem.interval = 15 ∧ reviewedItem.repetitions = 3 ∧
      (updateItemSchedule 0 reviewedItem 2).interval = 1 ∧
      (updateItemSchedule 0 reviewedItem 2).repetitions = 0 ∧
      (updateItemSchedule 0 reviewedItem 2).easeFactor < reviewedItem.easeFactor ∧
      (updateItemSchedule 0 reviewedItem 2).question = reviewedItem.question := by
  obtain ⟨h1, h2, -, h4, -, -, -, -, h5, -⟩ :=
    updateItemSchedule_fail_resets 0 reviewedItem 2 (by norm_num)
  exact ⟨rfl, rfl, h1, h2, h4 (by norm_num [reviewedItem, sampleItem]), h5⟩

/-! ## Item generator: the loops as list operations -/

theorem randomIndex_lt (r : Unit01) (n : Nat) (h : 0 < n) : randomIndex r n < n := by
  unfold randomIndex
  have hn : (0 : ℚ) < n := by exact_mod_cast h
  have h1 : r.val * n < n := by
    have := mul_lt_mul_of_pos_right r.lt_one hn
    linarith
  have h2 : Rat.floor (r.val * n) < (n : ℤ) := by
    have : (⌊r.val * n⌋ : ℤ) < (n : ℤ) := by
      rw [Int.floor_lt]
      exact_mod_cast h1
    exact this
  omega

theorem generateStep_eq (d : Draw) (sentences : List JSString) (type : JSString)
    (materials : List Item) :
    generateStep d sentences type materials =
      materials ++ (stepItem d sentences type).toList := by
  simp only [generateStep, stepItem]
  split <;> simp

theorem inner_loop_eq (env : Nat → Nat → Draw) (sentences : List JSString) (t : Nat)
    (type : JSString) (l : List Nat) (materials : List Item) :
    l.foldl (fun materials i => generateStep (env t i) sentences type materials) materials =
      materials ++ l.filterMap (fun i => stepItem (env t i) sentences type) := by
  induction l generalizing materials with
  | nil => simp
  | cons i l ih =>
    rw [List.foldl_cons, ih, generateStep_eq]
    cases h : stepItem (env t i) sentences type <;> simp [List.filterMap_cons, h]

theorem outer_loop_eq (env : Nat → Nat → Draw) (sentences : List JSString) (n : Nat)
    (l : List (Nat × JSString)) (materials : List Item) :
    l.foldl
        (fun materials tt =>
          (List.range n).foldl
            (fun materials i => generateStep (env tt.1 i) sentences tt.2 materials) materials)
        materials =
      materials ++ l.flatMap (fun tt => itemsForType env sentences n tt.1 tt.2) := by
  induction l generalizing materials with
  | nil => simp
  | cons tt l ih =>
    rw [List.foldl_cons, ih, inner_loop_eq]
    simp [itemsForType, List.flatMap_cons]

theorem generateStudyMaterials_eq (env : Nat → Nat → Draw) (text : JSString)
    (types : List JSString) (count : Nat) :
    generateStudyMaterials env text types count =
      types.enum.flatMap (fun tt =>
        itemsForType env (eligibleSentences text)
          (min (itemsPerType count types) (eligibleSentences text).length) tt.1 tt.2) := by
  unfold generateStudyMaterials
  simp only []
  rw [outer_loop_eq]
  simp

theorem length_itemsForType_le (env : Nat → Nat → Draw) (sentences : List JSString)
    (n t : Nat) (type : JSString) : (itemsForType env sentences n t type).length ≤ n := by
  unfold itemsForType
  calc ((List.range n).filterMap _).length ≤ (List.range n).length := List.length_filterMap_le _ _
    _ = n := List.length_range n

theorem length_flatMap_le {α β : Type} (l : List α) (f : α → List β) (n : Nat)
    (h : ∀ a ∈ l, (f a).length ≤ n) : (l.flatMap f).length ≤ l.length * n := by
  induction l with
  | nil => simp
  | cons a l ih =>
    rw [List.flatMap_cons, List.length_append, List.length_cons, Nat.succ_mul]
    have h1 := h a (List.mem_cons_self a l)
    have h2 := ih (fun b hb => h b (List.mem_cons_of_mem a hb))
    omega

/-- Every generated item was built, for a requested type, from the trimmed text of an
eligible sentence that has more than 5 words. -/
theorem mem_generateStudyMaterials (env : Nat → Nat → Draw) (text : JSString)
    (types : List JSString) (count : Nat) (item : Item)
    (h : item ∈ generateStudyMaterials env text types count) :
    ∃ d type s, type ∈ types ∧ s ∈ eligibleSentences text ∧
      5 < (splitSpace (trim s)).length ∧
      item = buildItem d type (trim s) (splitSpace (trim s)) := by
  rw [generateStudyMaterials_eq, List.mem_flatMap] at h
  obtain ⟨tt, htt, hmem⟩ := h
  unfold itemsForType at hmem
  rw [List.mem_filterMap] at hmem
  obtain ⟨i, hi, hstep⟩ := hmem
  rw [List.mem_range, lt_min_iff] at hi
  have hpos : 0 < (eligibleSentences text).length := by omega
  have hidx := randomIndex_lt (env tt.1 i).pick _ hpos
  simp only [stepItem] at hstep
  split at hstep
  · rename_i hw
    refine ⟨env tt.1 i, tt.2, (eligibleSentences text).getD
      (randomIndex (env tt.1 i).pick (eligibleSentences text).length) [], ?_, ?_, hw, ?_⟩
    · exact List.snd_mem_of_mem_enum htt
    · rw [List.getD_eq_getElem _ _ hidx]
      exact List.getElem_mem _
    · exact (Option.some.inj hstep).symm
  · exact absurd hstep (by simp)

/-! ## Scheduling state of generated items -/

theorem buildItem_schedule (d : Draw) (type sentence : JSString) (words : List JSString) :
    (buildItem d type sentence words).interval = 1 ∧
      (buildItem d type sentence words).easeFactor = 5 / 2 ∧
      (buildItem d type sentence words).repetitions = 0 := by
  unfold buildItem
  simp only []
  split_ifs <;> exact ⟨rfl, rfl, rfl⟩

theorem buildItem_type (d : Draw) (type sentence : JSString) (words : List JSString) :
    (buildItem d type sentence words).type = type := by
  unfold buildItem
  simp only []
  split_ifs <;> rfl

/-! ## Session engine -/

theorem handleRating_some (now : ℚ) (s : AppState) (quality : ℚ) (userAnswer : JSVal)
    (item : Item) (h : s.studyMaterials.get? s.currentItem = some item) :
    ∃ s', handleRating now s quality userAnswer = some s' ∧
      s'.studyMaterials = s.studyMaterials.set s.currentItem
        (updateItemSchedule now item (deriveRating item quality userAnswer).2) ∧
      s'.studyStats = statsAfter s.studyStats (deriveRating item quality userAnswer).1 ∧
      s'.currentItem < s'.studyMaterials.length := by
  have hlt : s.currentItem < s.studyMaterials.length := by
    by_contra hge
    rw [List.get?_eq_none.mpr (not_lt.mp hge)] at h
    exact absurd h (by simp)
  unfold handleRating
  rw [h]
  simp only []
  by_cases hc : s.currentItem < s.studyMaterials.length - 1
  · rw [if_pos hc]
    refine ⟨_, rfl, rfl, rfl, ?_⟩
    simp only [List.length_set]
    omega
  · rw [if_neg hc]
    refine ⟨_, rfl, rfl, rfl, ?_⟩
    simp only [List.length_set]
    exact hlt

theorem deriveRating_quiz (item : Item) (quality : ℚ) (userAnswer : JSVal)
    (hk : item.type = lit "mcq" ∨ item.type = lit "truefalse") :
    deriveRating item quality userAnswer =
      (decide (userAnswer = item.correctAnswer),
        if userAnswer = item.correctAnswer then 4 else 2) := by
  unfold deriveRating JSVal.strictEq
  rcases hk with hk | hk
  · simp [hk]
  · have hne : lit "truefalse" ≠ lit "mcq" := by decide
    simp [hk, hne]

theorem deriveRating_card (item : Item) (quality : ℚ) (userAnswer : JSVal)
    (h1 : item.type ≠ lit "mcq") (h2 : item.type ≠ lit "truefalse") :
    deriveRating item quality userAnswer = (decide (3 ≤ quality), quality) := by
  unfold deriveRating
  simp [h1, h2]

theorem takeWhile_append_of_exists_neg {α : Type} (p : α → Bool) (l₁ l₂ : List α)
    (h : ∃ a ∈ l₁, p a = false) : (l₁ ++ l₂).takeWhile p = l₁.takeWhile p := by
  induction l₁ with
  | nil => obtain ⟨a, ha, -⟩ := h; cases ha
  | cons x xs ih =>
    rw [List.cons_append, List.takeWhile_cons, List.takeWhile_cons]
    cases hx : p x with
    | false => rfl
    | true =>
      simp only [if_true]
      congr 1
      apply ih
      obtain ⟨a, ha, hpa⟩ := h
      rcases List.mem_cons.mp ha with rfl | ha'
      · rw [hx] at hpa; cases hpa
      · exact ⟨a, ha', hpa⟩

theorem trailingCorrect_of_all (flags : List Bool) (h : flags.all id = true) :
    trailingCorrect flags = flags.length := by
  unfold trailingCorrect
  have : flags.reverse.takeWhile (fun b => b) = flags.reverse := by
    rw [List.takeWhile_eq_self_iff]
    intro b hb
    rw [List.all_eq_true] at h
    exact h b (List.mem_reverse.mp hb)
  rw [this, List.length_reverse]

theorem trailingCorrect_cons_of_all (c : Bool) (flags : List Bool) (h : flags.all id = true) :
    trailingCorrect (c :: flags) = (if c then 1 else 0) + flags.length := by
  unfold trailingCorrect
  rw [List.reverse_cons, List.takeWhile_append_of_pos]
  · cases c
    · simp
    · simp [Nat.add_comm]
  · intro b hb
    rw [List.all_eq_true] at h
    exact h b (List.mem_reverse.mp hb)

theorem trailingCorrect_cons_of_not_all (c : Bool) (flags : List Bool)
    (h : flags.all id = false) : trailingCorrect (c :: flags) = trailingCorrect flags := by
  unfold trailingCorrect
  rw [List.reverse_cons, takeWhile_append_of_exists_neg]
  rw [List.all_eq_false] at h
  obtain ⟨b, hb, hnb⟩ := h
  exact ⟨b, List.mem_reverse.mpr hb, by simpa using hnb⟩

theorem runRatings_stats (s : AppState) (rs : List Rating)
    (h : s.currentItem < s.studyMaterials.length) :
    ∃ s', runRatings s rs = some s' ∧
      (ratingFlags s rs).length = rs.length ∧
      s'.studyStats.itemsStudied = s.studyStats.itemsStudied + rs.length ∧
      s'.studyStats.correctAnswers =
        s.studyStats.correctAnswers + (ratingFlags s rs).count true ∧
      s'.studyStats.streak =
        (if (ratingFlags s rs).all id then s.studyStats.streak else 0) +
          trailingCorrect (ratingFlags s rs) := by
  induction rs generalizing s with
  | nil => exact ⟨s, rfl, rfl, rfl, rfl, rfl⟩
  | cons r rs ih =>
    obtain ⟨item, hitem⟩ : ∃ item, s.studyMaterials.get? s.currentItem = some item :=
      ⟨_, List.get?_eq_get h⟩
    obtain ⟨s1, hs1, -, hstats, hcur⟩ :=
      handleRating_some r.now s r.quality r.userAnswer item hitem
    obtain ⟨s', hrun, hlen, hstud, hcorr, hstreak⟩ := ih s1 hcur
    have hflags : ratingFlags s (r :: rs) =
        (deriveRating item r.quality r.userAnswer).1 :: ratingFlags s1 rs := by
      simp only [ratingFlags, hitem, hs1]
    refine ⟨s', ?_, ?_, ?_, ?_, ?_⟩
    · simp only [runRatings, hs1, hrun]
    · rw [hflags, List.length_cons, hlen, List.length_cons]
    · rw [hstud, hstats, List.length_cons]
      simp only [statsAfter]
      omega
    · rw [hcorr, hstats, hflags]
      cases (deriveRating item r.quality r.userAnswer).1
      · simp [statsAfter]
      · simp [statsAfter]
        omega
    · rw [hstreak, hstats, hflags]
      cases hall : (ratingFlags s1 rs).all id
      · rw [trailingCorrect_cons_of_not_all _ _ hall]
        simp [hall]
      · rw [trailingCorrect_cons_of_all _ _ hall, trailingCorrect_of_all _ hall]
        cases (deriveRating item r.quality r.userAnswer).1
        · simp [statsAfter, hall]
        · simp [statsAfter, hall]
          omega


/-- C6: for a multiple-choice or true/false item at the cursor and every quality argument,
`handleRating` derives quality 4 and `isCorrect = true` when the user's selection equals
the item's `correctAnswer`, and quality 2 and `isCorrect = false` for any other selection;
the item stored at the cursor afterwards is `updateItemSchedule(item, derived quality)` and
every other item of the sequence is unchanged. -/
theorem handleRating_quiz (now : ℚ) (s : AppState) (quality : ℚ) (userAnswer : JSVal)
    (item : Item) (h : s.studyMaterials.get? s.currentItem = some item)
    (hk : item.type = lit "mcq" ∨ item.type = lit "truefalse") :
    (userAnswer = item.correctAnswer →
        deriveRating item quality userAnswer = (true, 4)) ∧
      (userAnswer ≠ item.correctAnswer →
        deriveRating item quality userAnswer = (false, 2)) ∧
      ∃ s', handleRating now s quality userAnswer = some s' ∧
        s'.studyMaterials.get? s.currentItem =
          some (updateItemSchedule now item (deriveRating item quality userAnswer).2) ∧
        s'.studyMaterials.length = s.studyMaterials.length ∧
        ∀ j, j ≠ s.currentItem → s'.studyMaterials.get? j = s.studyMaterials.get? j := by
  refine ⟨fun he => ?_, fun hne => ?_, ?_⟩
  · rw [deriveRating_quiz item quality userAnswer hk]
    simp [he]
  · rw [deriveRating_quiz item quality userAnswer hk]
    simp [hne]
  · obtain ⟨s', hs', hmat, -, -⟩ := handleRating_some now s quality userAnswer item h
    have hlt : s.currentItem < s.studyMaterials.length := by
      by_contra hge
      rw [List.get?_eq_none.mpr (not_lt.mp hge)] at h
      exact absurd h (by simp)
    refine ⟨s', hs', ?_, ?_, fun j hj => ?_⟩
    · rw [hmat, List.get?_eq_getElem?, List.getElem?_set_self hlt]
    · rw [hmat, List.length_set]
    · rw [hmat, List.get?_eq_getElem?, List.get?_eq_getElem?,
        List.getElem?_set_ne (Ne.symm hj)]

theorem handleRating_quiz_witness :
    deriveRating sampleMcq 2 (JSVal.str (lit "yes")) = (true, 4) ∧
      deriveRating sampleMcq 4 (JSVal.str (lit "no")) = (false, 2) :=
  ⟨(handleRating_quiz 0 sampleState 2 (JSVal.str (lit "yes")) sampleMcq rfl (Or.inl rfl)).1 rfl,
    (handleRating_quiz 0 sampleState 4 (JSVal.str (lit "no")) sampleMcq rfl (Or.inl rfl)).2.1
      (by decide)⟩

/-- C7: every rating step of `handleRating` increases `itemsStudied` by exactly 1,
increases `correctAnswers` by exactly 1 if the answer is correct and leaves it unchanged
otherwise, and sets `streak` to `streak + 1` if the answer is correct and to 0 otherwise,
where for a flashcard correct means that the chosen quality is at least 3; consequently,
after any sequence of ratings, `streak` is the number of consecutive correct answers at the
end of the sequence, counted on top of the initial streak when every answer was correct. -/
theorem handleRating_stats :
    (∀ (now : ℚ) (s : AppState) (quality : ℚ) (userAnswer : JSVal) (item : Item),
        s.studyMaterials.get? s.currentItem = some item →
        ∃ s', handleRating now s quality userAnswer = some s' ∧
          s'.studyStats.itemsStudied = s.studyStats.itemsStudied + 1 ∧
          s'.studyStats.correctAnswers = s.studyStats.correctAnswers +
            (if (deriveRating item quality userAnswer).1 then 1 else 0) ∧
          s'.studyStats.streak =
            (if (deriveRating item quality userAnswer).1 then s.studyStats.streak + 1 else 0) ∧
          (item.type ≠ lit "mcq" → item.type ≠ lit "truefalse" →
            (deriveRating item quality userAnswer).1 = decide (3 ≤ quality)) ∧
          (item.type = lit "mcq" ∨ item.type = lit "truefalse" →
            (deriveRating item quality userAnswer).1 =
              decide (userAnswer = item.correctAnswer))) ∧
      (∀ (s : AppState) (rs : List Rating), s.currentItem < s.studyMaterials.length →
        ∃ s', runRatings s rs = some s' ∧
          (ratingFlags s rs).length = rs.length ∧
          s'.studyStats.itemsStudied = s.studyStats.itemsStudied + rs.length ∧
          s'.studyStats.correctAnswers =
            s.studyStats.correctAnswers + (ratingFlags s rs).count true ∧
          s'.studyStats.streak =
            (if (ratingFlags s rs).all id then s.studyStats.streak else 0) +
              trailingCorrect (ratingFlags s rs) ∧
          (s.studyStats.streak = 0 →
            s'.studyStats.streak = trailingCorrect (ratingFlags s rs))) := by
  refine ⟨fun now s quality userAnswer item h => ?_, fun s rs h => ?_⟩
  · obtain ⟨s', hs', -, hstats, -⟩ := handleRating_some now s quality userAnswer item h
    refine ⟨s', hs', ?_, ?_, ?_, fun h1 h2 => ?_, fun hk => ?_⟩
    · rw [hstats]; rfl
    · rw [hstats]; rfl
    · rw [hstats]; rfl
    · rw [deriveRating_card item quality userAnswer h1 h2]
    · rw [deriveRating_quiz item quality userAnswer hk]
  · obtain ⟨s', hrun, hlen, hstud, hcorr, hstreak⟩ := runRatings_stats s rs h
    refine ⟨s', hrun, hlen, hstud, hcorr, hstreak, fun h0 => ?_⟩
    rw [hstreak, h0]
    simp

theorem handleRating_stats_witness :
    ∃ s', runRatings sampleState
        [⟨0, 4, JSVal.str (lit "no")⟩, ⟨1, 3, JSVal.null⟩, ⟨2, 4, JSVal.null⟩] = some s' ∧
      s'.studyStats.itemsStudied = 3 ∧ s'.studyStats.correctAnswers = 2 ∧
      s'.studyStats.streak = 2 := by
  obtain ⟨s', hrun, -, h1, h2, h3, -⟩ := handleRating_stats.2 sampleState
    [⟨0, 4, JSVal.str (lit "no")⟩, ⟨1, 3, JSVal.null⟩, ⟨2, 4, JSVal.null⟩] (by decide)
  have hflags : ratingFlags sampleState
      [⟨0, 4, JSVal.str (lit "no")⟩, ⟨1, 3, JSVal.null⟩, ⟨2, 4, JSVal.null⟩] =
      [false, true, true] := by
    have hne1 : lit "flashcard" ≠ lit "mcq" := by decide
    have hne2 : lit "flashcard" ≠ lit "truefalse" := by decide
    have hne3 : lit "no" ≠ lit "yes" := by decide
    simp [ratingFlags, handleRating, deriveRating, sampleState, sampleMcq, sampleItem,
      JSVal.strictEq, updateItemSchedule, hne1, hne2, hne3]
    norm_num
  refine ⟨s', hrun, ?_, ?_, ?_⟩
  · rw [h1]; rfl
  · rw [h2, hflags]; rfl
  · rw [h3, hflags]; rfl

/-! ## Item generator: how many items -/

theorem stepItem_eq_none (d : Draw) (sentences : List JSString) (type : JSString)
    (h : ∀ s ∈ sentences, (splitSpace (trim s)).length ≤ 5) :
    stepItem d sentences type = none := by
  simp only [stepItem]
  have hle : (splitSpace (trim (sentences.getD (randomIndex d.pick sentences.length) []))).length
      ≤ 5 := by
    by_cases hi : randomIndex d.pick sentences.length < sentences.length
    · rw [List.getD_eq_getElem _ _ hi]
      exact h _ (List.getElem_mem _)
    · rw [List.getD_eq_default _ _ (not_lt.mp hi)]
      decide
  rw [if_neg (by omega)]

theorem stepItem_eq_some (d : Draw) (sentences : List JSString) (type : JSString)
    (hne : sentences ≠ []) (h : ∀ s ∈ sentences, 5 < (splitSpace (trim s)).length) :
    ∃ item, stepItem d sentences type = some item ∧ item.type = type := by
  simp only [stepItem]
  have hpos : 0 < sentences.length := List.length_pos.mpr hne
  have hi := randomIndex_lt d.pick sentences.length hpos
  have hgt : 5 < (splitSpace (trim (sentences.getD (randomIndex d.pick sentences.length)
      []))).length := by
    rw [List.getD_eq_getElem _ _ hi]
    exact h _ (List.getElem_mem _)
  rw [if_pos hgt]
  exact ⟨_, rfl, buildItem_type _ _ _ _⟩

/-- When no eligible sentence has more than 5 words, nothing is generated. -/
theorem generateStudyMaterials_eq_nil (env : Nat → Nat → Draw) (text : JSString)
    (types : List JSString) (count : Nat)
    (h : ∀ s ∈ eligibleSentences text, (splitSpace (trim s)).length ≤ 5) :
    generateStudyMaterials env text types count = [] := by
  rw [generateStudyMaterials_eq, List.flatMap_eq_nil_iff]
  intro tt _
  unfold itemsForType
  rw [List.filterMap_eq_nil_iff]
  intro i _
  exact stepItem_eq_none _ _ _ h

theorem length_generateStudyMaterials_le (env : Nat → Nat → Draw) (text : JSString)
    (types : List JSString) (count : Nat) :
    (generateStudyMaterials env text types count).length ≤
      types.length * ⌈(count : ℚ) / (types.length : ℚ)⌉₊ := by
  rw [generateStudyMaterials_eq]
  have h := length_flatMap_le types.enum
    (fun tt => itemsForType env (eligibleSentences text)
      (min (itemsPerType count types) (eligibleSentences text).length) tt.1 tt.2)
    (itemsPerType count types)
    (fun tt _ => le_trans (length_itemsForType_le _ _ _ _ _) (min_le_left _ _))
  rw [List.enum_length] at h
  exact h

theorem one_le_itemsPerType (count : Nat) (types : List JSString) (hk : types ≠ [])
    (hn : 1 ≤ count) : 1 ≤ itemsPerType count types := by
  unfold itemsPerType
  rw [Nat.one_le_iff_ne_zero, Ne, Nat.ceil_eq_zero, not_le]
  have hk' : (0 : ℚ) < types.length := by exact_mod_cast List.length_pos.mpr hk
  have hn' : (0 : ℚ) < count := by exact_mod_cast hn
  exact div_pos hn' hk'

theorem exists_item_of_type (env : Nat → Nat → Draw) (text : JSString)
    (types : List JSString) (count : Nat) (hk : types ≠ []) (hn : 1 ≤ count)
    (hne : eligibleSentences text ≠ [])
    (hw : ∀ s ∈ eligibleSentences text, 5 < (splitSpace (trim s)).length)
    (type : JSString) (ht : type ∈ types) :
    ∃ item ∈ generateStudyMaterials env text types count, item.type = type := by
  obtain ⟨t, htlt, hget⟩ := List.mem_iff_getElem.mp ht
  have hmem : (t, type) ∈ types.enum := by
    rw [List.mk_mem_enum_iff_getElem?, List.getElem?_eq_getElem htlt, hget]
  obtain ⟨item, hitem, hty⟩ := stepItem_eq_some (env t 0) (eligibleSentences text) type hne hw
  refine ⟨item, ?_, hty⟩
  rw [generateStudyMaterials_eq, List.mem_flatMap]
  refine ⟨(t, type), hmem, ?_⟩
  unfold itemsForType
  rw [List.mem_filterMap]
  refine ⟨0, ?_, hitem⟩
  rw [List.mem_range, lt_min_iff]
  exact ⟨one_le_itemsPerType count types hk hn, List.length_pos.mpr hne⟩

/-- C8 as stated fails: the pool of `fiveWordText` is not empty, yet one requested kind
and target count 1 produce no item, because the only eligible sentence has 5 words. -/
theorem generateStudyMaterials_pool_counterexample :
    eligibleSentences fiveWordText ≠ [] ∧
      generateStudyMaterials sampleEnv fiveWordText [lit "flashcard"] 1 = [] ∧
      ¬ ∃ item ∈ generateStudyMaterials sampleEnv fiveWordText [lit "flashcard"] 1,
        item.type = lit "flashcard" := by
  have h := generateStudyMaterials_eq_nil sampleEnv fiveWordText [lit "flashcard"] 1
    (by decide)
  refine ⟨by decide, h, ?_⟩
  rw [h]
  simp

theorem generateStep_of_few_pieces (d : Draw) (sentences : List JSString) (type : JSString)
    (materials : List Item)
    (h : (splitSpace (trim (sentences.getD (randomIndex d.pick sentences.length)
      []))).length ≤ 5) :
    generateStep d sentences type materials = materials := by
  simp only [generateStep]
  rw [if_neg (by omega)]

/-- C8, amended: for every text, every list of `K` requested kinds, every target count
`N` and every outcome of the random choices, `generateStudyMaterials` returns at most
`K * ceil(N / K)` items; when `K ≥ 1`, `N ≥ 1`, the pool of sentences with trimmed length
above 20 is not empty and every sentence of the pool, trimmed and split at single spaces
(empty pieces counted), has more than 5 pieces, it returns at least 1 item of each
requested kind; an iteration of the loop whose drawn sentence has 5 such pieces or fewer
pushes no item. -/
theorem generateStudyMaterials_count (env : Nat → Nat → Draw) (text : JSString)
    (types : List JSString) (count : Nat) :
    (generateStudyMaterials env text types count).length ≤
        types.length * ⌈(count : ℚ) / (types.length : ℚ)⌉₊ ∧
      (types ≠ [] → 1 ≤ count → eligibleSentences text ≠ [] →
        (∀ s ∈ eligibleSentences text, 5 < (splitSpace (trim s)).length) →
        ∀ type ∈ types, ∃ item ∈ generateStudyMaterials env text types count,
          item.type = type) ∧
      (∀ (t i : Nat) (type : JSString) (materials : List Item),
        (splitSpace (trim ((eligibleSentences text).getD
          (randomIndex (env t i).pick (eligibleSentences text).length) []))).length ≤ 5 →
        generateStep (env t i) (eligibleSentences text) type materials = materials) :=
  ⟨length_generateStudyMaterials_le env text types count,
    fun hk hn hne hw type ht => exists_item_of_type env text types count hk hn hne hw type ht,
    fun t i type materials h =>
      generateStep_of_few_pieces (env t i) (eligibleSentences text) type materials h⟩

theorem generateStudyMaterials_count_witness :
    (∃ item ∈ generateStudyMaterials sampleEnv catText [lit "mcq", lit "truefalse"] 15,
        item.type = lit "truefalse") ∧
      generateStep (sampleEnv 0 0) (eligibleSentences fiveWordText) (lit "mcq") [sampleItem] =
        [sampleItem] :=
  ⟨(generateStudyMaterials_count sampleEnv catText [lit "mcq", lit "truefalse"] 15).2.1
      (by decide) (by decide) (by decide) (by decide) (lit "truefalse") (by decide),
    (generateStudyMaterials_count sampleEnv fiveWordText [lit "mcq"] 15).2.2 0 0 (lit "mcq")
      [sampleItem] (by
        have hpool : eligibleSentences fiveWordText = [lit "This sentence has five words"] := by
          decide
        have hidx : randomIndex (sampleEnv 0 0).pick 1 = 0 := by
          have := randomIndex_lt (sampleEnv 0 0).pick 1 (by norm_num)
          omega
        rw [hpool]
        simp only [List.length_singleton, hidx]
        decide)⟩

/-! ## Words of a sentence -/

theorem length_splitSpace (s : JSString) : (splitSpace s).length = s.count 32 + 1 := by
  induction s with
  | nil => rfl
  | cons c cs ih =>
    by_cases hc : c = 32
    · subst hc
      simp [splitSpace, ih]
    · have hc' : (32 : Nat) ≠ c := fun h => hc h.symm
      cases hs : splitSpace cs with
      | nil => rw [hs] at ih; simp at ih
      | cons w ws =>
        rw [hs] at ih
        simp only [splitSpace, hc, if_false, hs, List.length_cons] at ih ⊢
        rw [List.count_cons_of_ne hc']
        exact ih

theorem not_mem_of_mem_splitSpace (s w : JSString) (h : w ∈ splitSpace s) : 32 ∉ w := by
  induction s generalizing w with
  | nil =>
    simp only [splitSpace, List.mem_singleton] at h
    subst h
    simp
  | cons c cs ih =>
    by_cases hc : c = 32
    · subst hc
      simp only [splitSpace, if_true, List.mem_cons] at h
      rcases h with rfl | h
      · simp
      · exact ih w h
    · cases hs : splitSpace cs with
      | nil =>
        simp only [splitSpace, hc, if_false, hs, List.mem_singleton] at h
        subst h
        simpa using fun h => hc h.symm
      | cons v vs =>
        simp only [splitSpace, hc, if_false, hs, List.mem_cons] at h
        rcases h with rfl | h
        · have hv := ih v (by rw [hs]; exact List.mem_cons_self v vs)
          intro hmem
          rcases List.mem_cons.mp hmem with h32 | h32
          · exact hc h32.symm
          · exact hv h32
        · exact ih w (by rw [hs]; exact List.mem_cons_of_mem v h)

theorem keywordOf_mem (words : List JSString) (h : 0 < words.length) :
    keywordOf words ∈ words := by
  unfold keywordOf
  have hi : words.length / 2 < words.length := by omega
  rw [List.getD_eq_getElem _ _ hi]
  exact List.getElem_mem _

/-- A sentence of more than 5 words is none of the three decoys built for it. -/
theorem sentence_ne_decoys (sentence : JSString) (h : 5 < (splitSpace sentence).length) :
    sentence ≠ keywordOf (splitSpace sentence) ++ lit " is unrelated" ∧
      sentence ≠ lit "Opposite meaning" ∧ sentence ≠ lit "Different concept" := by
  refine ⟨fun heq => ?_, fun heq => ?_, fun heq => ?_⟩
  · have hk := not_mem_of_mem_splitSpace sentence _ (keywordOf_mem (splitSpace sentence) (by omega))
    have hlen := length_splitSpace sentence
    have hcount : sentence.count 32 =
        (keywordOf (splitSpace sentence)).count 32 + (lit " is unrelated").count 32 := by
      conv_lhs => rw [heq]
      exact List.count_append _ _ _
    rw [List.count_eq_zero_of_not_mem hk] at hcount
    have h2 : (lit " is unrelated").count 32 = 2 := by decide
    omega
  · rw [heq] at h
    revert h
    decide
  · rw [heq] at h
    revert h
    decide

/-! ## Item generator: the items built -/

theorem generateStudyMaterials_catText (env : Nat → Nat → Draw) (type : JSString) :
    generateStudyMaterials env catText [type] 1 =
      [buildItem (env 0 0) type catSentence (splitSpace catSentence)] := by
  have hpool : eligibleSentences catText = [catSentence] := by decide
  have hipt : itemsPerType 1 [type] = 1 := by simp [itemsPerType]
  have hidx : randomIndex (env 0 0).pick 1 = 0 := by
    have := randomIndex_lt (env 0 0).pick 1 (by norm_num)
    omega
  have htrim : trim catSentence = catSentence := by decide
  have hwords : 5 < (splitSpace catSentence).length := by decide
  rw [generateStudyMaterials_eq, hpool, hipt]
  simp [List.enum, List.enumFrom, itemsForType, List.range_succ, stepItem, hidx, htrim, hwords]

theorem buildItem_mcq (d : Draw) (sentence : JSString) (words : List JSString) :
    (buildItem d (lit "mcq") sentence words).options =
        some (d.shuffle [sentence, keywordOf words ++ lit " is unrelated",
          lit "Opposite meaning", lit "Different concept"]).val ∧
      (buildItem d (lit "mcq") sentence words).correctAnswer = JSVal.str sentence := by
  have hne : lit "mcq" ≠ lit "flashcard" := by decide
  simp only [buildItem, hne, if_false, if_true, and_self]

theorem buildItem_truefalse (d : Draw) (sentence : JSString) (words : List JSString) :
    (buildItem d (lit "truefalse") sentence words).question =
        some (if decide (d.coin.val > 1 / 2) then sentence
          else replaceFirst (keywordOf words) (lit "incorrect") sentence) ∧
      (buildItem d (lit "truefalse") sentence words).correctAnswer =
        JSVal.bool (decide (d.coin.val > 1 / 2)) := by
  have hne1 : lit "truefalse" ≠ lit "flashcard" := by decide
  have hne2 : lit "truefalse" ≠ lit "mcq" := by decide
  simp only [buildItem, hne1, hne2, if_false, if_true, and_self]

/-- What the code does for a true/false item: a true item shows the sentence unmodified,
a false item shows `sentence.replace(keyword, 'incorrect')`, where the first occurrence of
the keyword's text is replaced, wherever it is. -/
theorem truefalse_question (env : Nat → Nat → Draw) (text : JSString)
    (types : List JSString) (count : Nat) (item : Item)
    (h : item ∈ generateStudyMaterials env text types count)
    (hty : item.type = lit "truefalse") :
    ∃ s ∈ eligibleSentences text,
      (item.correctAnswer = JSVal.bool true ∧ item.question = some (trim s)) ∨
      (item.correctAnswer = JSVal.bool false ∧ item.question =
        some (replaceFirst (keywordOf (splitSpace (trim s))) (lit "incorrect") (trim s))) := by
  obtain ⟨d, type, s, -, hs, -, rfl⟩ := mem_generateStudyMaterials env text types count item h
  rw [buildItem_type] at hty
  subst hty
  obtain ⟨hq, ha⟩ := buildItem_truefalse d (trim s) (splitSpace (trim s))
  refine ⟨s, hs, ?_⟩
  by_cases hc : d.coin.val > 1 / 2
  · left
    rw [ha, hq, decide_eq_true hc]
    exact ⟨rfl, rfl⟩
  · right
    rw [ha, hq, decide_eq_false hc]
    exact ⟨rfl, rfl⟩

/-- C10 at a failing input: for the text `This cat really is quite a pet. Short one.`, the
kind `truefalse` and a `Math.random()` of 0 at line 41, the item is false and its question
is `Thincorrect cat really is quite a pet`: the keyword `is`, the word at index 3 of 7, is
left in place and the first word is altered, whereas replacing the pivot word gives
`This cat really incorrect quite a pet`. -/
theorem truefalse_question_catText :
    (generateStudyMaterials sampleEnv catText [lit "truefalse"] 1).map
        (fun item => (item.question, item.correctAnswer)) =
        [(some (lit "Thincorrect cat really is quite a pet"), JSVal.bool false)] ∧
      keywordOf (splitSpace catSentence) = lit "is" ∧
      (splitSpace catSentence).length / 2 = 3 ∧
      replacePivot catSentence = lit "This cat really incorrect quite a pet" ∧
      lit "Thincorrect cat really is quite a pet" ≠ replacePivot catSentence := by
  refine ⟨?_, by decide, by decide, by decide, by decide⟩
  obtain ⟨hq, ha⟩ := buildItem_truefalse sampleDraw catSentence (splitSpace catSentence)
  have hcoin : ¬ (sampleDraw.coin.val > 1 / 2) := by
    simp only [sampleDraw, zero01]
    norm_num
  have hrep : replaceFirst (keywordOf (splitSpace catSentence)) (lit "incorrect") catSentence =
      lit "Thincorrect cat really is quite a pet" := by decide
  rw [generateStudyMaterials_catText]
  simp only [List.map_cons, List.map_nil, sampleEnv]
  rw [hq, ha, hrep, decide_eq_false hcoin]
  rfl

/-! ## Chat relay -/

theorem getD_of_not_contentTruthy (content : Option JSString)
    (h : contentTruthy content = false) : content.getD [] = [] := by
  cases content with
  | none => rfl
  | some s =>
    simp only [contentTruthy, decide_eq_false_iff_not, not_not] at h
    simpa using h

theorem getD_ne_nil_of_contentTruthy (content : Option JSString)
    (h : contentTruthy content = true) : content.getD [] ≠ [] := by
  cases content with
  | none => simp [contentTruthy] at h
  | some s =>
    simp only [contentTruthy, decide_eq_true_eq] at h
    simpa using h

theorem streamLoop_step_truthy (chunk : Chunk) (rest : List Chunk) (failure : Option JSString)
    (fullResponse : JSString) (written : List Event) (h : contentTruthy chunk.content = true) :
    streamLoop (chunk :: rest) failure fullResponse written =
      if chunk.done then
        (written ++ [Event.data (chunk.content.getD []) (fullResponse ++ chunk.content.getD [])
          chunk.done] ++ [Event.data [] (fullResponse ++ chunk.content.getD []) true], true)
      else streamLoop rest failure (fullResponse ++ chunk.content.getD [])
        (written ++ [Event.data (chunk.content.getD []) (fullResponse ++ chunk.content.getD [])
          chunk.done]) := by
  simp only [streamLoop, h, if_true]

theorem streamLoop_step_falsy (chunk : Chunk) (rest : List Chunk) (failure : Option JSString)
    (fullResponse : JSString) (written : List Event) (h : contentTruthy chunk.content = false) :
    streamLoop (chunk :: rest) failure fullResponse written =
      if chunk.done then (written ++ [Event.data [] fullResponse true], true)
      else streamLoop rest failure fullResponse written := by
  simp [streamLoop, h]

theorem streamLoop_terminal (chunks : List Chunk) (failure : Option JSString)
    (fullResponse : JSString) (written : List Event)
    (h : (∃ c ∈ chunks, c.done = true) ∨ failure.isSome = true) :
    ∃ mids last, streamLoop chunks failure fullResponse written = (written ++ mids ++ [last], true) ∧
      last.isTerminal = true ∧ (∀ e ∈ mids, e.isTerminal = false) ∧
      ((∀ c ∈ receivedChunks chunks, c.done = true → contentTruthy c.content = false) →
        ∀ e ∈ mids, e.done = false) ∧
      (∀ content full d, last = Event.data content full d →
        content = [] ∧ d = true ∧
          full = fullResponse ++ concatContents (receivedChunks chunks)) := by
  induction chunks generalizing fullResponse written with
  | nil =>
    rcases h with ⟨c, hc, -⟩ | h
    · cases hc
    · obtain ⟨detail, rfl⟩ := Option.isSome_iff_exists.mp h
      refine ⟨[], Event.error (lit "Error talking to Ollama") detail, ?_, rfl, ?_, ?_, ?_⟩
      · simp [streamLoop]
      · intro e he; cases he
      · intro _ e he; cases he
      · intro content full d hlast; cases hlast
  | cons chunk rest ih =>
    have hrest : chunk.done = false →
        (∃ c ∈ rest, c.done = true) ∨ failure.isSome = true := by
      intro hnd
      rcases h with ⟨c, hc, hcd⟩ | h
      · rcases List.mem_cons.mp hc with rfl | hc'
        · rw [hnd] at hcd; cases hcd
        · exact Or.inl ⟨c, hc', hcd⟩
      · exact Or.inr h
    cases ht : contentTruthy chunk.content with
    | true =>
      rw [streamLoop_step_truthy chunk rest failure fullResponse written ht]
      cases hd : chunk.done with
      | true =>
        refine ⟨[Event.data (chunk.content.getD []) (fullResponse ++ chunk.content.getD []) true],
          Event.data [] (fullResponse ++ chunk.content.getD []) true, ?_, rfl, ?_, ?_, ?_⟩
        · simp
        · intro e he
          rw [List.mem_singleton] at he
          subst he
          simp [Event.isTerminal, getD_ne_nil_of_contentTruthy _ ht]
        · intro hall
          have := hall chunk (by simp [receivedChunks, hd]) hd
          rw [ht] at this
          cases this
        · intro content full d hlast
          cases hlast
          refine ⟨rfl, rfl, ?_⟩
          simp [receivedChunks, hd, concatContents]
      | false =>
        obtain ⟨mids, last, hloop, hterm, hmids, hdone, hlast⟩ :=
          ih (fullResponse ++ chunk.content.getD [])
            (written ++ [Event.data (chunk.content.getD [])
              (fullResponse ++ chunk.content.getD []) false]) (hrest hd)
        refine ⟨Event.data (chunk.content.getD []) (fullResponse ++ chunk.content.getD []) false
          :: mids, last, ?_, hterm, ?_, ?_, ?_⟩
        · simp only [Bool.false_eq_true, if_false]
          rw [hloop]
          simp
        · intro e he
          rcases List.mem_cons.mp he with rfl | he'
          · rfl
          · exact hmids e he'
        · intro hall e he
          rcases List.mem_cons.mp he with rfl | he'
          · rfl
          · refine hdone (fun c hc hcd => hall c ?_ hcd) e he'
            simp [receivedChunks, hd, hc]
        · intro content full d hl
          obtain ⟨h1, h2, h3⟩ := hlast content full d hl
          refine ⟨h1, h2, ?_⟩
          rw [h3]
          simp [receivedChunks, hd, concatContents]
    | false =>
      rw [streamLoop_step_falsy chunk rest failure fullResponse written ht]
      cases hd : chunk.done with
      | true =>
        refine ⟨[], Event.data [] fullResponse true, ?_, rfl, ?_, ?_, ?_⟩
        · simp
        · intro e he; cases he
        · intro _ e he; cases he
        · intro content full d hlast
          cases hlast
          refine ⟨rfl, rfl, ?_⟩
          simp [receivedChunks, hd, concatContents, getD_of_not_contentTruthy _ ht]
      | false =>
        obtain ⟨mids, last, hloop, hterm, hmids, hdone, hlast⟩ :=
          ih fullResponse written (hrest hd)
        refine ⟨mids, last, ?_, hterm, hmids, ?_, ?_⟩
        · simp only [Bool.false_eq_true, if_false]
          exact hloop
        · intro hall e he
          refine hdone (fun c hc hcd => hall c ?_ hcd) e he
          simp [receivedChunks, hd, hc]
        · intro content full d hl
          obtain ⟨h1, h2, h3⟩ := hlast content full d hl
          refine ⟨h1, h2, ?_⟩
          rw [h3]
          simp [receivedChunks, hd, concatContents, getD_of_not_contentTruthy _ ht]

theorem done_of_isTerminal (e : Event) (h : e.isTerminal = true) : e.done = true := by
  cases e with
  | data content full d =>
    simp only [Event.isTerminal, Bool.and_eq_true] at h
    exact h.1
  | error err detail => rfl


/-- C11 as stated fails: when the chunk with `done = true` also carries content, two events
with `done = true` are written, the first of them not the last event; when the upstream
ends with neither a `done` chunk nor a failure, no event with `done = true` is written and
`res.end()` is not called. -/
theorem chatStream_done_counterexample :
    chatStream (some (lit "hello")) doneWithContent =
        Reply.stream [Event.data (lit "Hi") (lit "Hi") true, Event.data [] (lit "Hi") true]
          true ∧
      ((chatStream (some (lit "hello")) doneWithContent).events.filter Event.done).length = 2 ∧
      chatStream (some (lit "hello")) endsWithoutDone =
        Reply.stream [Event.data (lit "Hi") (lit "Hi") false] false ∧
      ((chatStream (some (lit "hello")) endsWithoutDone).events.filter Event.done).length = 0 := by
  decide

/-- C11, amended: for every request carrying a message and every upstream that delivers a
chunk with `done = true` or fails, the handler writes its events and calls `res.end()`;
the last event written has `done = true` and is the only terminal event (an error event,
or a data event with `done = true` and empty content); it is the only event with
`done = true` whenever the received `done` chunk carries no content; when it is not an
error event its content is empty and its `fullResponse` is the concatenation of the
contents of all chunks received. -/
theorem chatStream_terminal (message : JSString) (upstream : Upstream) (hm : message ≠ [])
    (h : (∃ c ∈ upstream.chunks, c.done = true) ∨ upstream.failure.isSome = true) :
    ∃ mids last, chatStream (some message) upstream = Reply.stream (mids ++ [last]) true ∧
      last.done = true ∧ last.isTerminal = true ∧ (∀ e ∈ mids, e.isTerminal = false) ∧
      ((∀ c ∈ receivedChunks upstream.chunks, c.done = true →
          contentTruthy c.content = false) → ∀ e ∈ mids, e.done = false) ∧
      (∀ content full d, last = Event.data content full d →
        content = [] ∧ full = concatContents (receivedChunks upstream.chunks)) := by
  obtain ⟨mids, last, hloop, hterm, hmids, hdone, hlast⟩ :=
    streamLoop_terminal upstream.chunks upstream.failure [] [] h
  refine ⟨mids, last, ?_, done_of_isTerminal last hterm, hterm, hmids, hdone, ?_⟩
  · have ht : contentTruthy (some message) = true := by
      simp only [contentTruthy, decide_eq_true_eq]
      exact hm
    simp only [chatStream, ht, if_true, hloop, List.nil_append]
  · intro content full d hl
    obtain ⟨h1, -, h3⟩ := hlast content full d hl
    exact ⟨h1, by rw [h3, List.nil_append]⟩

theorem chatStream_terminal_witness :
    ∃ mids last, chatStream (some (lit "hello")) sampleUpstream =
        Reply.stream (mids ++ [last]) true ∧
      last.done = true ∧ last.isTerminal = true ∧ (∀ e ∈ mids, e.isTerminal = false) ∧
      ((∀ c ∈ receivedChunks sampleUpstream.chunks, c.done = true →
          contentTruthy c.content = false) → ∀ e ∈ mids, e.done = false) ∧
      (∀ content full d, last = Event.data content full d →
        content = [] ∧ full = concatContents (receivedChunks sampleUpstream.chunks)) :=
  chatStream_terminal (lit "hello") sampleUpstream (by decide) (by decide)

/-! ## Item generator: insufficient content -/

theorem eligibleSentences_eq_nil (text : JSString)
    (h : ∀ s ∈ splitSentences text, (trim s).length ≤ 20) : eligibleSentences text = [] := by
  unfold eligibleSentences
  rw [List.filter_eq_nil_iff]
  intro s hs
  have := h s hs
  simp only [gt_iff_lt, decide_eq_true_eq, not_lt]
  exact this

theorem mem_eligibleSentences (text s : JSString) (h : s ∈ eligibleSentences text) :
    s ∈ splitSentences text ∧ 20 < (trim s).length := by
  unfold eligibleSentences at h
  rw [List.mem_filter] at h
  exact ⟨h.1, by simpa using h.2⟩

/-- What the guard of line 20 guarantees, pieces being counted as `split(' ')` returns them,
empty ones included: nothing is generated when no fragment between sentence terminators
has trimmed length above 20, or when no eligible sentence has more than 5 pieces; every
item returned is built from a fragment of trimmed length above 20 with more than 5 pieces;
and the index of line 17 is within the pool in every iteration. -/
theorem generateStudyMaterials_insufficient (env : Nat → Nat → Draw) (text : JSString)
    (types : List JSString) (count : Nat) :
    ((∀ s ∈ splitSentences text, (trim s).length ≤ 20) →
        generateStudyMaterials env text types count = []) ∧
      ((∀ s ∈ eligibleSentences text, (splitSpace (trim s)).length ≤ 5) →
        generateStudyMaterials env text types count = []) ∧
      (∀ item ∈ generateStudyMaterials env text types count,
        ∃ d type s, s ∈ splitSentences text ∧ 20 < (trim s).length ∧
          5 < (splitSpace (trim s)).length ∧
          item = buildItem d type (trim s) (splitSpace (trim s))) ∧
      (eligibleSentences text ≠ [] → ∀ t i,
        randomIndex (env t i).pick (eligibleSentences text).length <
          (eligibleSentences text).length) := by
  refine ⟨fun h => ?_, fun h => ?_, fun item hitem => ?_, fun hne t i => ?_⟩
  · apply generateStudyMaterials_eq_nil
    rw [eligibleSentences_eq_nil text h]
    intro s hs
    cases hs
  · exact generateStudyMaterials_eq_nil env text types count h
  · obtain ⟨d, type, s, -, hs, hw, hb⟩ :=
      mem_generateStudyMaterials env text types count item hitem
    obtain ⟨h1, h2⟩ := mem_eligibleSentences text s hs
    exact ⟨d, type, s, h1, h2, hw, hb⟩
  · exact randomIndex_lt _ _ (List.length_pos.mpr hne)

theorem generateStudyMaterials_insufficient_witness :
    generateStudyMaterials sampleEnv [] [lit "flashcard", lit "mcq", lit "truefalse"] 15 = [] ∧
      generateStudyMaterials sampleEnv strayText [lit "mcq"] 15 = [] ∧
      generateStudyMaterials sampleEnv fiveWordText [lit "truefalse"] 15 = [] :=
  ⟨(generateStudyMaterials_insufficient sampleEnv []
      [lit "flashcard", lit "mcq", lit "truefalse"] 15).1 (by decide),
    (generateStudyMaterials_insufficient sampleEnv strayText
      [lit "mcq"] 15).1 (by decide),
    (generateStudyMaterials_insufficient sampleEnv fiveWordText [lit "truefalse"] 15).2.1
      (by decide)⟩

/-! ## Binary64: evaluating a rounding -/

theorem int_log_eq (q : ℚ) (b : ℤ) (h1 : (2 : ℚ) ^ b ≤ |q|) (h2 : |q| < (2 : ℚ) ^ (b + 1)) :
    Int.log 2 |q| = b := by
  have hpos : 0 < |q| := lt_of_lt_of_le (by positivity) h1
  apply le_antisymm
  · have h := (Int.lt_zpow_iff_log_lt (b := 2) (by norm_num) hpos).mp (by exact_mod_cast h2)
    exact Int.lt_add_one_iff.mp h
  · exact (Int.zpow_le_iff_le_log (b := 2) (by norm_num) hpos).mp (by exact_mod_cast h1)

theorem roundTiesEven_eq (x : ℚ) (m : ℤ) (h : |x - m| < 1 / 2) : roundTiesEven x = m := by
  rw [abs_lt] at h
  unfold roundTiesEven
  have hf1 := Int.floor_le x
  have hf2 := Int.lt_floor_add_one x
  by_cases hc : x - ⌊x⌋ < 1 / 2
  · rw [if_pos hc]
    have h1 : (⌊x⌋ : ℚ) < m + 1 := by linarith
    have h2 : (m : ℚ) < ⌊x⌋ + 1 := by linarith
    have h1' : ⌊x⌋ < m + 1 := by exact_mod_cast h1
    have h2' : m < ⌊x⌋ + 1 := by exact_mod_cast h2
    omega
  · rw [if_neg hc]
    have hge : 1 / 2 ≤ x - ⌊x⌋ := not_lt.mp hc
    have h1 : (⌊x⌋ : ℚ) < m := by linarith
    have h2 : (m : ℚ) < ⌊x⌋ + 1 + 1 := by linarith
    have h1' : ⌊x⌋ < m := by exact_mod_cast h1
    have h2' : m < ⌊x⌋ + 1 + 1 := by exact_mod_cast h2
    have hm : m = ⌊x⌋ + 1 := by omega
    have hgt : 1 / 2 < x - ⌊x⌋ := by
      have : (m : ℚ) = ⌊x⌋ + 1 := by exact_mod_cast hm
      linarith
    rw [if_pos hgt, hm]

/-- Evaluating a rounding: with `b` the binade of `q` and `m` the integer nearest to `q`
in units of the spacing, the double nearest to `q` is `m` units. -/
theorem roundF64_eq (q : ℚ) (b m : ℤ) (h1 : (2 : ℚ) ^ b ≤ |q|) (h2 : |q| < (2 : ℚ) ^ (b + 1))
    (hm : |q / (2 : ℚ) ^ (max (-1074) (b - 52)) - m| < 1 / 2)
    (hfin : |(m : ℚ) * (2 : ℚ) ^ (max (-1074) (b - 52))| < (2 : ℚ) ^ (1024 : ℤ)) :
    roundF64 q = F64.fin ((m : ℚ) * (2 : ℚ) ^ (max (-1074) (b - 52))) := by
  have hq : quantum q = max (-1074) (b - 52) := by
    unfold quantum
    rw [int_log_eq q b h1 h2]
  unfold roundF64
  simp only [hq]
  rw [roundTiesEven_eq _ m hm, if_neg (not_le.mpr hfin)]

theorem double_13 : double (13 / 10) = F64.fin (5854679515581645 / 4503599627370496) := by
  unfold double
  rw [roundF64_eq (13 / 10) 0 5854679515581645 (by norm_num [abs_of_pos])
    (by norm_num [abs_of_pos]) (by norm_num [abs_lt]) (by norm_num [abs_lt])]
  norm_num


theorem double_01 : double (1 / 10) = F64.fin (3602879701896397 / 36028797018963968) := by
  unfold double
  rw [roundF64_eq (1 / 10) (-4) 7205759403792794 (by norm_num [abs_of_pos])
    (by norm_num [abs_of_pos]) (by norm_num [abs_lt]) (by norm_num [abs_lt])]
  norm_num

theorem double_008 : double (8 / 100) = F64.fin (5764607523034235 / 72057594037927936) := by
  unfold double
  rw [roundF64_eq (8 / 100) (-4) 5764607523034235 (by norm_num [abs_of_pos])
    (by norm_num [abs_of_pos]) (by norm_num [abs_lt]) (by norm_num [abs_lt])]
  norm_num

theorem double_002 : double (2 / 100) = F64.fin (5764607523034235 / 288230376151711744) := by
  unfold double
  rw [roundF64_eq (2 / 100) (-6) 5764607523034235 (by norm_num [abs_of_pos])
    (by norm_num [abs_of_pos]) (by norm_num [abs_lt]) (by norm_num [abs_lt])]
  norm_num

/-! ## Scheduler in binary64: the interval on a pass -/

theorem updateItemSchedule64_pass (s : Schedule64) (quality : F64)
    (h : F64.le (F64.fin 3) quality = true) :
    (updateItemSchedule64 s quality).interval =
        (if F64.strictEq s.repetitions (F64.fin 0) then F64.fin 1
          else if F64.strictEq s.repetitions (F64.fin 1) then F64.fin 6
          else F64.round (F64.mul s.interval s.easeFactor)) ∧
      (updateItemSchedule64 s quality).repetitions = F64.add s.repetitions (F64.fin 1) := by
  simp only [updateItemSchedule64, h, if_true, and_self]

theorem updateItemSchedule64_fail (s : Schedule64) (quality : F64)
    (h : F64.le (F64.fin 3) quality = false) :
    (updateItemSchedule64 s quality).interval = F64.fin 1 ∧
      (updateItemSchedule64 s quality).repetitions = F64.fin 0 := by
  simp [updateItemSchedule64, h]

theorem strictEq_of_two_le (r : F64) (h : F64.le (F64.fin 2) r = true) :
    F64.strictEq r (F64.fin 0) = false ∧ F64.strictEq r (F64.fin 1) = false := by
  cases r with
  | fin q =>
    simp only [F64.le, decide_eq_true_eq] at h
    have h0 : q ≠ 0 := by linarith
    have h1 : q ≠ 1 := by linarith
    simp [F64.strictEq, h0, h1]
  | posInf => simp [F64.strictEq]
  | negInf => simp [F64.le] at h
  | nan => simp [F64.le] at h

theorem mul_6_25 : F64.round (F64.mul (F64.fin 6) (F64.fin (5 / 2))) = F64.fin 15 := by
  have h : roundF64 (6 * (5 / 2)) = F64.fin 15 := by
    rw [roundF64_eq (6 * (5 / 2)) 3 8444249301319680 (by norm_num [abs_of_pos])
      (by norm_num [abs_of_pos]) (by norm_num [abs_lt]) (by norm_num [abs_lt])]
    norm_num
  simp only [F64.mul, h, F64.round]
  have hf : (⌊(15 : ℚ) + 1 / 2⌋ : ℤ) = 15 := by
    rw [Int.floor_eq_iff]; norm_num
  rw [hf]
  norm_num

theorem mul_375 :
    F64.round (F64.mul (F64.fin 375) (F64.fin (7295831396340203 / 4503599627370496))) =
      F64.fin 608 := by
  have h : roundF64 (375 * (7295831396340203 / 4503599627370496)) = F64.fin (1215 / 2) := by
    rw [roundF64_eq (375 * (7295831396340203 / 4503599627370496)) 9 5343626510991360
      (by norm_num [abs_of_pos]) (by norm_num [abs_of_pos]) (by norm_num [abs_lt])
      (by norm_num [abs_lt])]
    norm_num
  simp only [F64.mul, h, F64.round]
  have hf : (⌊(1215 / 2 : ℚ) + 1 / 2⌋ : ℤ) = 608 := by
    rw [Int.floor_eq_iff]; norm_num
  rw [hf]
  norm_num

theorem mul_55 :
    F64.round (F64.mul (F64.fin 55) (F64.fin (8556839292003941 / 4503599627370496))) =
      F64.fin 104 := by
  have h : roundF64 (55 * (8556839292003941 / 4503599627370496)) =
      F64.fin (7353533766565887 / 70368744177664) := by
    rw [roundF64_eq (55 * (8556839292003941 / 4503599627370496)) 6 7353533766565887
      (by norm_num [abs_of_pos]) (by norm_num [abs_of_pos]) (by norm_num [abs_lt])
      (by norm_num [abs_lt])]
    norm_num
  simp only [F64.mul, h, F64.round]
  have hf : (⌊(7353533766565887 / 70368744177664 : ℚ) + 1 / 2⌋ : ℤ) = 104 := by
    rw [Int.floor_eq_iff]; norm_num
  rw [hf]
  norm_num

/-- C3: on a pass (quality 3 or more) the interval returned by `updateItemSchedule` is 1
when the item's repetitions is 0, 6 when it is 1 whatever the prior interval, and
`Math.round(interval * easeFactor)`, the rounding of the double product of the original
interval and ease factor, when it is 2 or more; repetitions 2, interval 6 and ease factor
2.5 give 15. -/
theorem updateItemSchedule64_interval_pass (s : Schedule64) (quality : F64)
    (h : F64.le (F64.fin 3) quality = true) :
    (s.repetitions = F64.fin 0 → (updateItemSchedule64 s quality).interval = F64.fin 1) ∧
      (s.repetitions = F64.fin 1 → (updateItemSchedule64 s quality).interval = F64.fin 6) ∧
      (F64.le (F64.fin 2) s.repetitions = true →
        (updateItemSchedule64 s quality).interval =
          F64.round (F64.mul s.interval s.easeFactor)) ∧
      (s.repetitions = F64.fin 2 → s.interval = F64.fin 6 → s.easeFactor = F64.fin (5 / 2) →
        (updateItemSchedule64 s quality).interval = F64.fin 15) := by
  rw [(updateItemSchedule64_pass s quality h).1]
  refine ⟨fun h0 => ?_, fun h1 => ?_, fun h2 => ?_, fun h2 hi he => ?_⟩
  · simp [h0, F64.strictEq]
  · simp [h1, F64.strictEq]
  · obtain ⟨e0, e1⟩ := strictEq_of_two_le s.repetitions h2
    simp [e0, e1]
  · obtain ⟨e0, e1⟩ := strictEq_of_two_le s.repetitions (by rw [h2]; simp [F64.le])
    simp only [e0, e1, hi, he]
    exact mul_6_25

theorem updateItemSchedule64_interval_pass_witness :
    (updateItemSchedule64 ⟨F64.fin 6, F64.fin 2, F64.fin (5 / 2)⟩ (F64.fin 4)).interval =
        F64.fin 15 ∧
      (updateItemSchedule64
        ⟨F64.fin 375, F64.fin 8, F64.fin (7295831396340203 / 4503599627370496)⟩
        (F64.fin 3)).interval = F64.fin 608 ∧
      (updateItemSchedule64
        ⟨F64.fin 55, F64.fin 5, F64.fin (8556839292003941 / 4503599627370496)⟩
        (F64.fin 3)).interval = F64.fin 104 :=
  ⟨(updateItemSchedule64_interval_pass ⟨F64.fin 6, F64.fin 2, F64.fin (5 / 2)⟩ (F64.fin 4)
      (by norm_num [F64.le])).2.2.2 rfl rfl rfl,
    ((updateItemSchedule64_interval_pass
      ⟨F64.fin 375, F64.fin 8, F64.fin (7295831396340203 / 4503599627370496)⟩ (F64.fin 3)
      (by norm_num [F64.le])).2.2.1 (by norm_num [F64.le])).trans mul_375,
    ((updateItemSchedule64_interval_pass
      ⟨F64.fin 55, F64.fin 5, F64.fin (8556839292003941 / 4503599627370496)⟩ (F64.fin 3)
      (by norm_num [F64.le])).2.2.1 (by norm_num [F64.le])).trans mul_55⟩


/-! ## Binary64: bounds on a rounding -/

theorem roundTiesEven_mem (x : ℚ) :
    roundTiesEven x = ⌊x⌋ ∨ (roundTiesEven x = ⌊x⌋ + 1 ∧ 1 / 2 ≤ x - ⌊x⌋) := by
  unfold roundTiesEven
  by_cases h1 : x - ⌊x⌋ < 1 / 2
  · left; rw [if_pos h1]
  · rw [if_neg h1]
    by_cases h2 : 1 / 2 < x - ⌊x⌋
    · right; rw [if_pos h2]; exact ⟨rfl, not_lt.mp h1⟩
    · rw [if_neg h2]
      by_cases h3 : ⌊x⌋ % 2 = 0
      · left; rw [if_pos h3]
      · right; rw [if_neg h3]; exact ⟨rfl, not_lt.mp h1⟩

theorem le_roundTiesEven (x : ℚ) (n : ℤ) (h : (n : ℚ) ≤ x) : n ≤ roundTiesEven x := by
  have hf : n ≤ ⌊x⌋ := Int.le_floor.mpr h
  rcases roundTiesEven_mem x with h1 | ⟨h1, -⟩ <;> omega

theorem roundTiesEven_le_of_lt (x : ℚ) (n : ℤ) (h : x < (n : ℚ) + 1 / 2) :
    roundTiesEven x ≤ n := by
  have hfl := Int.floor_le x
  rcases roundTiesEven_mem x with h1 | ⟨h1, h2⟩
  · have : (⌊x⌋ : ℚ) < n + 1 := by linarith
    have : ⌊x⌋ < n + 1 := by exact_mod_cast this
    omega
  · have : (⌊x⌋ : ℚ) < n := by linarith
    have : ⌊x⌋ < n := by exact_mod_cast this
    omega

theorem roundTiesEven_le (x : ℚ) (n : ℤ) (h : x ≤ (n : ℚ)) : roundTiesEven x ≤ n :=
  roundTiesEven_le_of_lt x n (by linarith)

theorem roundF64_cases (q : ℚ) :
    roundF64 q = F64.posInf ∨ roundF64 q = F64.negInf ∨ ∃ r, roundF64 q = F64.fin r := by
  unfold roundF64
  simp only []
  split_ifs
  · exact Or.inl rfl
  · exact Or.inr (Or.inl rfl)
  · exact Or.inr (Or.inr ⟨_, rfl⟩)

/-- A point `g` of the grid around `q` that lies below `q` lies below the rounding of `q`. -/
theorem roundF64_lower (q g : ℚ) (N : ℤ) (hg : g = (N : ℚ) * (2 : ℚ) ^ quantum q)
    (hle : g ≤ q) (hbig : -((2 : ℚ) ^ (1024 : ℤ)) < g) :
    roundF64 q = F64.posInf ∨ ∃ r, roundF64 q = F64.fin r ∧ g ≤ r := by
  have hpos : (0 : ℚ) < (2 : ℚ) ^ quantum q := by positivity
  have hN : (N : ℚ) ≤ q / (2 : ℚ) ^ quantum q := by
    rw [le_div_iff₀ hpos, ← hg]
    exact hle
  have hm := le_roundTiesEven _ N hN
  have hr : g ≤ (roundTiesEven (q / (2 : ℚ) ^ quantum q) : ℚ) * (2 : ℚ) ^ quantum q := by
    rw [hg]
    exact mul_le_mul_of_nonneg_right (by exact_mod_cast hm) hpos.le
  unfold roundF64
  simp only []
  by_cases hov : (2 : ℚ) ^ (1024 : ℤ) ≤
      |(roundTiesEven (q / (2 : ℚ) ^ quantum q) : ℚ) * (2 : ℚ) ^ quantum q|
  · rw [if_pos hov]
    have hq : 0 < q := by
      by_contra hq
      have h0 : q / (2 : ℚ) ^ quantum q ≤ ((0 : ℤ) : ℚ) := by
        rw [Int.cast_zero]
        exact div_nonpos_of_nonpos_of_nonneg (not_lt.mp hq) hpos.le
      have hm0 := roundTiesEven_le _ 0 h0
      have hr0 : (roundTiesEven (q / (2 : ℚ) ^ quantum q) : ℚ) * (2 : ℚ) ^ quantum q ≤ 0 :=
        mul_nonpos_of_nonpos_of_nonneg (by exact_mod_cast hm0) hpos.le
      rw [abs_of_nonpos hr0] at hov
      linarith
    rw [if_pos hq]
    exact Or.inl rfl
  · rw [if_neg hov]
    exact Or.inr ⟨_, rfl, hr⟩

/-- When `q` is less than half a spacing above the grid point `N`, its rounding is at
most that grid point. -/
theorem roundF64_upper_half (q : ℚ) (N : ℤ)
    (hN : q / (2 : ℚ) ^ quantum q < (N : ℚ) + 1 / 2)
    (hbig : (N : ℚ) * (2 : ℚ) ^ quantum q < (2 : ℚ) ^ (1024 : ℤ)) :
    roundF64 q = F64.negInf ∨
      ∃ r, roundF64 q = F64.fin r ∧ r ≤ (N : ℚ) * (2 : ℚ) ^ quantum q := by
  have hpos : (0 : ℚ) < (2 : ℚ) ^ quantum q := by positivity
  have hm := roundTiesEven_le_of_lt _ N hN
  have hr : (roundTiesEven (q / (2 : ℚ) ^ quantum q) : ℚ) * (2 : ℚ) ^ quantum q ≤
      (N : ℚ) * (2 : ℚ) ^ quantum q :=
    mul_le_mul_of_nonneg_right (by exact_mod_cast hm) hpos.le
  unfold roundF64
  simp only []
  by_cases hov : (2 : ℚ) ^ (1024 : ℤ) ≤
      |(roundTiesEven (q / (2 : ℚ) ^ quantum q) : ℚ) * (2 : ℚ) ^ quantum q|
  · rw [if_pos hov]
    have hq : ¬ 0 < q := by
      intro hq
      have h0 : ((0 : ℤ) : ℚ) ≤ q / (2 : ℚ) ^ quantum q := by
        rw [Int.cast_zero]
        exact div_nonneg hq.le hpos.le
      have hm0 := le_roundTiesEven _ 0 h0
      have hr0 : 0 ≤ (roundTiesEven (q / (2 : ℚ) ^ quantum q) : ℚ) * (2 : ℚ) ^ quantum q :=
        mul_nonneg (by exact_mod_cast hm0) hpos.le
      rw [abs_of_nonneg hr0] at hov
      linarith
    rw [if_neg hq]
    exact Or.inl rfl
  · rw [if_neg hov]
    exact Or.inr ⟨_, rfl, hr⟩

/-- A point `g` of the grid around `q` that lies above `q` lies above the rounding of `q`. -/
theorem roundF64_upper (q g : ℚ) (N : ℤ) (hg : g = (N : ℚ) * (2 : ℚ) ^ quantum q)
    (hle : q ≤ g) (hbig : g < (2 : ℚ) ^ (1024 : ℤ)) :
    roundF64 q = F64.negInf ∨ ∃ r, roundF64 q = F64.fin r ∧ r ≤ g := by
  have hpos : (0 : ℚ) < (2 : ℚ) ^ quantum q := by positivity
  have hN : q / (2 : ℚ) ^ quantum q ≤ (N : ℚ) := by
    rw [div_le_iff₀ hpos, ← hg]
    exact hle
  rw [hg]
  exact roundF64_upper_half q N (by linarith) (by rw [← hg]; exact hbig)

theorem roundF64_nonneg (q : ℚ) (h : 0 ≤ q) :
    roundF64 q = F64.posInf ∨ ∃ r, roundF64 q = F64.fin r ∧ 0 ≤ r :=
  roundF64_lower q 0 0 (by simp) h (by norm_num)

theorem roundF64_nonpos (q : ℚ) (h : q ≤ 0) :
    roundF64 q = F64.negInf ∨ ∃ r, roundF64 q = F64.fin r ∧ r ≤ 0 :=
  roundF64_upper q 0 0 (by simp) h (by norm_num)

theorem roundF64_zero : roundF64 0 = F64.fin 0 := by
  rcases roundF64_nonneg 0 (le_refl 0) with h | ⟨r, hr, h0⟩
  · rcases roundF64_nonpos 0 (le_refl 0) with h' | ⟨r, hr, -⟩
    · rw [h] at h'; cases h'
    · rw [h] at hr; cases hr
  · rcases roundF64_nonpos 0 (le_refl 0) with h' | ⟨r', hr', h0'⟩
    · rw [hr] at h'; cases h'
    · rw [hr] at hr'
      cases hr'
      rw [hr, le_antisymm h0' h0]

theorem quantum_le (q : ℚ) (k : ℤ) (hk : 0 ≤ k) (h : |q| < (2 : ℚ) ^ (k + 53)) :
    quantum q ≤ k := by
  unfold quantum
  apply max_le (by omega)
  rcases (abs_nonneg q).eq_or_lt with h0 | hpos
  · rw [← h0, Int.log_zero_right]
    omega
  · have := (Int.lt_zpow_iff_log_lt (b := 2) (by norm_num) hpos).mp (by exact_mod_cast h)
    omega

theorem zpow_on_grid (e k : ℤ) (h : e ≤ k) :
    (2 : ℚ) ^ k = (((2 : ℤ) ^ (k - e).toNat : ℤ) : ℚ) * (2 : ℚ) ^ e := by
  have h1 : (((2 : ℤ) ^ (k - e).toNat : ℤ) : ℚ) = (2 : ℚ) ^ (k - e) := by
    rw [Int.cast_pow, ← zpow_natCast, Int.toNat_of_nonneg (by omega)]
    norm_num
  rw [h1, ← zpow_add₀ (by norm_num : (2 : ℚ) ≠ 0)]
  congr 1
  omega

theorem roundF64_le_pow (q : ℚ) (k : ℤ) (hk0 : 0 ≤ k) (hk : k ≤ 1023)
    (h : q ≤ (2 : ℚ) ^ k) :
    roundF64 q = F64.negInf ∨ ∃ r, roundF64 q = F64.fin r ∧ r ≤ (2 : ℚ) ^ k := by
  have hkpos : (0 : ℚ) < (2 : ℚ) ^ k := by positivity
  rcases le_or_lt q 0 with hq | hq
  · rcases roundF64_nonpos q hq with h' | ⟨r, hr, h0⟩
    · exact Or.inl h'
    · exact Or.inr ⟨r, hr, by linarith⟩
  · have hlt : |q| < (2 : ℚ) ^ (k + 53) := by
      rw [abs_of_pos hq]
      exact lt_of_le_of_lt h (zpow_lt_zpow_right₀ (by norm_num) (by omega))
    exact roundF64_upper q _ _ (zpow_on_grid _ k (quantum_le q k hk0 hlt)) h
      (zpow_lt_zpow_right₀ (by norm_num) (by omega))

theorem roundF64_ge_neg_pow (q : ℚ) (k : ℤ) (hk0 : 0 ≤ k) (hk : k ≤ 1023)
    (h : -((2 : ℚ) ^ k) ≤ q) :
    roundF64 q = F64.posInf ∨ ∃ r, roundF64 q = F64.fin r ∧ -((2 : ℚ) ^ k) ≤ r := by
  have hkpos : (0 : ℚ) < (2 : ℚ) ^ k := by positivity
  rcases le_or_lt 0 q with hq | hq
  · rcases roundF64_nonneg q hq with h' | ⟨r, hr, h0⟩
    · exact Or.inl h'
    · exact Or.inr ⟨r, hr, by linarith⟩
  · have hlt : |q| < (2 : ℚ) ^ (k + 53) := by
      rw [abs_of_neg hq]
      exact lt_of_le_of_lt (by linarith) (zpow_lt_zpow_right₀ (by norm_num) (by omega))
    have hgrid := zpow_on_grid _ k (quantum_le q k hk0 hlt)
    refine roundF64_lower q _ (-((2 : ℤ) ^ (k - quantum q).toNat)) ?_ h ?_
    · rw [hgrid]
      push_cast
      ring
    · have : (2 : ℚ) ^ k < (2 : ℚ) ^ (1024 : ℤ) :=
        zpow_lt_zpow_right₀ (by norm_num) (by omega)
      linarith

theorem log_grid (q : ℚ) (k : ℤ) (hk0 : 0 ≤ k) (h : (2 : ℚ) ^ k ≤ |q|) :
    k ≤ Int.log 2 |q| ∧ quantum q ≤ Int.log 2 |q| ∧ (2 : ℚ) ^ Int.log 2 |q| ≤ |q| := by
  have hpos : 0 < |q| := lt_of_lt_of_le (by positivity) h
  have hk : k ≤ Int.log 2 |q| :=
    (Int.zpow_le_iff_le_log (b := 2) (by norm_num) hpos).mp (by exact_mod_cast h)
  refine ⟨hk, ?_, ?_⟩
  · unfold quantum
    apply max_le <;> omega
  · exact_mod_cast Int.zpow_log_le_self (b := 2) (by norm_num) hpos

theorem roundF64_ge_pow (q : ℚ) (k : ℤ) (hk0 : 0 ≤ k) (h : (2 : ℚ) ^ k ≤ q) :
    roundF64 q = F64.posInf ∨ ∃ r, roundF64 q = F64.fin r ∧ (2 : ℚ) ^ k ≤ r := by
  have hq : 0 < q := lt_of_lt_of_le (by positivity) h
  obtain ⟨hk, hgrid, hle⟩ := log_grid q k hk0 (by rw [abs_of_pos hq]; exact h)
  have hle' : (2 : ℚ) ^ Int.log 2 |q| ≤ q := le_trans hle (le_of_eq (abs_of_pos hq))
  have hmono : (2 : ℚ) ^ k ≤ (2 : ℚ) ^ Int.log 2 |q| := zpow_le_zpow_right₀ (by norm_num) hk
  have hlog : (0 : ℚ) < (2 : ℚ) ^ Int.log 2 |q| := by positivity
  rcases roundF64_lower q _ _ (zpow_on_grid _ _ hgrid) hle'
    (lt_trans (by norm_num : -((2 : ℚ) ^ (1024 : ℤ)) < 0) hlog) with h' | ⟨r, hr, hge⟩
  · exact Or.inl h'
  · exact Or.inr ⟨r, hr, le_trans hmono hge⟩

theorem roundF64_le_neg_pow (q : ℚ) (k : ℤ) (hk0 : 0 ≤ k) (h : q ≤ -((2 : ℚ) ^ k)) :
    roundF64 q = F64.negInf ∨ ∃ r, roundF64 q = F64.fin r ∧ r ≤ -((2 : ℚ) ^ k) := by
  have hkpos : (0 : ℚ) < (2 : ℚ) ^ k := by positivity
  have hq : q < 0 := lt_of_le_of_lt h (neg_lt_zero.mpr hkpos)
  obtain ⟨hk, hgrid, hle⟩ := log_grid q k hk0 (by rw [abs_of_neg hq]; linarith)
  have hle' : (2 : ℚ) ^ Int.log 2 |q| ≤ -q := le_trans hle (le_of_eq (abs_of_neg hq))
  have hmono : (2 : ℚ) ^ k ≤ (2 : ℚ) ^ Int.log 2 |q| := zpow_le_zpow_right₀ (by norm_num) hk
  have hg := zpow_on_grid _ _ hgrid
  have hlog : (0 : ℚ) < (2 : ℚ) ^ Int.log 2 |q| := by positivity
  rcases roundF64_upper q (-((2 : ℚ) ^ Int.log 2 |q|))
    (-((2 : ℤ) ^ (Int.log 2 |q| - quantum q).toNat)) (by rw [hg]; push_cast; ring)
    (by linarith) (lt_trans (neg_lt_zero.mpr hlog) (by positivity)) with h' | ⟨r, hr, hge⟩
  · exact Or.inl h'
  · exact Or.inr ⟨r, hr, by linarith⟩

/-- A sum that exceeds `2 ^ 100` by at most `2 ^ 7` rounds to at most `2 ^ 100`. -/
theorem roundF64_absorb (q : ℚ) (h : q ≤ (2 : ℚ) ^ (100 : ℤ) + (2 : ℚ) ^ (7 : ℤ)) :
    roundF64 q = F64.negInf ∨ ∃ r, roundF64 q = F64.fin r ∧ r ≤ (2 : ℚ) ^ (100 : ℤ) := by
  rcases le_or_lt q ((2 : ℚ) ^ (100 : ℤ)) with hq | hq
  · exact roundF64_le_pow q 100 (by norm_num) (by norm_num) hq
  · have hpos : 0 < q := lt_trans (by positivity) hq
    have hquant : quantum q = 48 := by
      unfold quantum
      rw [int_log_eq q 100 (by rw [abs_of_pos hpos]; exact hq.le)
        (by rw [abs_of_pos hpos]; refine lt_of_le_of_lt h ?_; norm_num)]
      norm_num
    have h' := roundF64_upper_half q ((2 : ℤ) ^ 52)
      (by rw [hquant, div_lt_iff₀ (by positivity)]
          refine lt_of_le_of_lt h ?_
          norm_num)
      (by rw [hquant]; norm_num)
    rw [hquant] at h'
    rcases h' with h' | ⟨r, hr, hle⟩
    · exact Or.inl h'
    · refine Or.inr ⟨r, hr, le_trans hle ?_⟩
      norm_num



/-! ## Scheduler in binary64: the ease factor stays a number -/

theorem roundF64_fin_lt (q r : ℚ) (h : roundF64 q = F64.fin r) : |r| < (2 : ℚ) ^ (1024 : ℤ) := by
  unfold roundF64 at h
  simp only [] at h
  split_ifs at h with h1 h2
  · exact lt_of_not_le (by cases h; exact h1)

theorem double_008_idem :
    roundF64 (5764607523034235 / 72057594037927936 + 0) =
      F64.fin (5764607523034235 / 72057594037927936) := by
  rw [roundF64_eq (5764607523034235 / 72057594037927936 + 0) (-4) 5764607523034235
    (by norm_num [abs_of_pos]) (by norm_num [abs_of_pos]) (by norm_num [abs_lt])
    (by norm_num [abs_lt])]
  norm_num

/-- The product `(5 - quality) * (0.08 + (5 - quality) * 0.02)` of line 182 is `Infinity`
or a number that is at least `-64`. -/
theorem ease_product_bound (quality : ℚ) :
    F64.mul (F64.sub (F64.fin 5) (F64.fin quality))
        (F64.add (double (8 / 100)) (F64.mul (F64.sub (F64.fin 5) (F64.fin quality))
          (double (2 / 100)))) = F64.posInf ∨
      ∃ p, F64.mul (F64.sub (F64.fin 5) (F64.fin quality))
        (F64.add (double (8 / 100)) (F64.mul (F64.sub (F64.fin 5) (F64.fin quality))
          (double (2 / 100)))) = F64.fin p ∧ -((2 : ℚ) ^ (6 : ℤ)) ≤ p := by
  rw [double_008, double_002]
  have hX : F64.sub (F64.fin 5) (F64.fin quality) = roundF64 (5 + -quality) := rfl
  rw [hX]
  rcases roundF64_cases (5 + -quality) with hx | hx | ⟨x, hx⟩
  · rw [hx]
    left
    norm_num [F64.mul, F64.mulInf, F64.add]
  · rw [hx]
    left
    norm_num [F64.mul, F64.mulInf, F64.add]
  · rw [hx]
    have hZ : F64.mul (F64.fin x) (F64.fin (5764607523034235 / 288230376151711744)) =
        roundF64 (x * (5764607523034235 / 288230376151711744)) := rfl
    rw [hZ]
    rcases le_or_lt 0 x with hx0 | hx0
    · -- a nonnegative factor
      rcases roundF64_nonneg (x * (5764607523034235 / 288230376151711744))
        (mul_nonneg hx0 (by norm_num)) with hz | ⟨z, hz, hz0⟩
      · have hxne : x ≠ 0 := by
          rintro rfl
          rw [zero_mul, roundF64_zero] at hz
          cases hz
        have hxpos : 0 < x := lt_of_le_of_ne hx0 (Ne.symm hxne)
        rw [hz]
        left
        simp [F64.mul, F64.mulInf, F64.add, hxne, hxpos]
      · rw [hz]
        have hY : F64.add (F64.fin (5764607523034235 / 72057594037927936)) (F64.fin z) =
            roundF64 (5764607523034235 / 72057594037927936 + z) := rfl
        rw [hY]
        rcases roundF64_nonneg (5764607523034235 / 72057594037927936 + z)
          (add_nonneg (by norm_num) hz0) with hy | ⟨y, hy, hy0⟩
        · have hxne : x ≠ 0 := by
            rintro rfl
            rw [zero_mul, roundF64_zero] at hz
            cases hz
            rw [double_008_idem] at hy
            cases hy
          have hxpos : 0 < x := lt_of_le_of_ne hx0 (Ne.symm hxne)
          rw [hy]
          left
          simp [F64.mul, F64.mulInf, hxne, hxpos]
        · rw [hy]
          have hP : F64.mul (F64.fin x) (F64.fin y) = roundF64 (x * y) := rfl
          rw [hP]
          rcases roundF64_nonneg (x * y) (mul_nonneg hx0 hy0) with hp | ⟨p, hp, hp0⟩
          · exact Or.inl hp
          · exact Or.inr ⟨p, hp, le_trans (by norm_num) hp0⟩
    · -- a negative factor
      have hxne : x ≠ 0 := ne_of_lt hx0
      have hxnp : ¬ 0 < x := not_lt.mpr hx0.le
      rcases roundF64_nonpos (x * (5764607523034235 / 288230376151711744))
        (mul_nonpos_of_nonpos_of_nonneg hx0.le (by norm_num)) with hz | ⟨z, hz, hz0⟩
      · rw [hz]
        left
        simp [F64.mul, F64.mulInf, F64.add, hxne, hxnp]
      · rw [hz]
        have hY : F64.add (F64.fin (5764607523034235 / 72057594037927936)) (F64.fin z) =
            roundF64 (5764607523034235 / 72057594037927936 + z) := rfl
        rw [hY]
        rcases roundF64_le_pow (5764607523034235 / 72057594037927936 + z) 0 (le_refl 0)
          (by norm_num) (by norm_num; linarith) with hy | ⟨y, hy, hy1⟩
        · rw [hy]
          left
          simp [F64.mul, F64.mulInf, hxne, hxnp]
        · rw [hy]
          have hP : F64.mul (F64.fin x) (F64.fin y) = roundF64 (x * y) := rfl
          rw [hP]
          rcases le_or_lt y 0 with hy0 | hy0
          · rcases roundF64_nonneg (x * y) (mul_nonneg_of_nonpos_of_nonpos hx0.le hy0)
              with hp | ⟨p, hp, hp0⟩
            · exact Or.inl hp
            · exact Or.inr ⟨p, hp, le_trans (by norm_num) hp0⟩
          · -- the second factor is positive, so the first is not below -64
            have hx64 : -64 ≤ x := by
              by_contra hlt
              have hlt' : x < -64 := not_le.mp hlt
              have hprod : x * (5764607523034235 / 288230376151711744) ≤
                  -((2 : ℚ) ^ (0 : ℤ)) := by
                norm_num
                linarith
              rcases roundF64_le_neg_pow _ 0 (le_refl 0) hprod with hz' | ⟨z', hz', hz1⟩
              · rw [hz] at hz'; cases hz'
              · rw [hz] at hz'
                cases hz'
                norm_num at hz1
                rcases roundF64_nonpos (5764607523034235 / 72057594037927936 + z)
                  (by linarith) with hy' | ⟨y', hy', hy0'⟩
                · rw [hy] at hy'; cases hy'
                · rw [hy] at hy'
                  cases hy'
                  linarith
            norm_num at hy1
            have hxy : -((2 : ℚ) ^ (6 : ℤ)) ≤ x * y := by
              norm_num
              nlinarith
            exact roundF64_ge_neg_pow (x * y) 6 (by norm_num) (by norm_num) hxy


/-- The change `0.1 - (5 - quality) * (0.08 + (5 - quality) * 0.02)` of line 182 is
`-Infinity` or a number that is at most `128`. -/
theorem ease_delta_bound (quality : ℚ) :
    F64.sub (double (1 / 10))
        (F64.mul (F64.sub (F64.fin 5) (F64.fin quality))
          (F64.add (double (8 / 100)) (F64.mul (F64.sub (F64.fin 5) (F64.fin quality))
            (double (2 / 100))))) = F64.negInf ∨
      ∃ d, F64.sub (double (1 / 10))
        (F64.mul (F64.sub (F64.fin 5) (F64.fin quality))
          (F64.add (double (8 / 100)) (F64.mul (F64.sub (F64.fin 5) (F64.fin quality))
            (double (2 / 100))))) = F64.fin d ∧ d ≤ (2 : ℚ) ^ (7 : ℤ) := by
  rcases ease_product_bound quality with hp | ⟨p, hp, hp64⟩
  · rw [hp, double_01]
    left
    rfl
  · rw [hp, double_01]
    have hD : F64.sub (F64.fin (3602879701896397 / 36028797018963968)) (F64.fin p) =
        roundF64 (3602879701896397 / 36028797018963968 + -p) := rfl
    rw [hD]
    refine roundF64_le_pow _ 7 (by norm_num) (by norm_num) ?_
    norm_num at hp64 ⊢
    linarith

theorem F64.le_max_fin (a : ℚ) (b : F64) (hb : b ≠ F64.nan) :
    F64.le (F64.fin a) (F64.max (F64.fin a) b) = true := by
  cases b with
  | fin q =>
    by_cases h : a ≤ q
    · simp [F64.max, F64.le, h]
    · simp [F64.max, F64.le, h]
  | posInf => simp [F64.max, F64.le]
  | negInf => simp [F64.max, F64.le]
  | nan => exact absurd rfl hb

theorem updateItemSchedule64_easeFactor (s : Schedule64) (quality : F64) :
    (updateItemSchedule64 s quality).easeFactor =
      F64.max (double (13 / 10))
        (F64.add s.easeFactor
          (F64.sub (double (1 / 10))
            (F64.mul (F64.sub (F64.fin 5) quality)
              (F64.add (double (8 / 100)) (F64.mul (F64.sub (F64.fin 5) quality)
                (double (2 / 100))))))) := by
  unfold updateItemSchedule64
  split <;> rfl

/-- For a finite ease factor and a finite quality the new ease factor is a number, not
NaN, and at least 1.3. -/
theorem easeFactor64_floor (s : Schedule64) (quality e : ℚ) (he : s.easeFactor = F64.fin e) :
    F64.le (double (13 / 10)) (updateItemSchedule64 s (F64.fin quality)).easeFactor = true := by
  rw [updateItemSchedule64_easeFactor, he]
  rcases ease_delta_bound quality with hd | ⟨d, hd, -⟩
  · rw [hd, double_13]
    exact F64.le_max_fin _ _ (by simp [F64.add])
  · rw [hd, double_13]
    apply F64.le_max_fin
    have hA : F64.add (F64.fin e) (F64.fin d) = roundF64 (e + d) := rfl
    rw [hA]
    rcases roundF64_cases (e + d) with h | h | ⟨r, h⟩ <;> rw [h] <;> simp

/-- A finite ease factor between 1.3 and `2 ^ 100` stays so, for every finite quality. -/
theorem easeFactor64_bounded (s : Schedule64) (quality e : ℚ) (he : s.easeFactor = F64.fin e)
    (h2 : e ≤ (2 : ℚ) ^ (100 : ℤ)) :
    ∃ e', (updateItemSchedule64 s (F64.fin quality)).easeFactor = F64.fin e' ∧
      5854679515581645 / 4503599627370496 ≤ e' ∧ e' ≤ (2 : ℚ) ^ (100 : ℤ) := by
  rw [updateItemSchedule64_easeFactor, he, double_13]
  rcases ease_delta_bound quality with hd | ⟨d, hd, hd7⟩
  · rw [hd]
    refine ⟨5854679515581645 / 4503599627370496, ?_, le_refl _, by norm_num⟩
    simp [F64.add, F64.max, F64.le]
  · rw [hd]
    have hA : F64.add (F64.fin e) (F64.fin d) = roundF64 (e + d) := rfl
    rw [hA]
    rcases roundF64_absorb (e + d) (by linarith) with h | ⟨r, h, hr⟩
    · rw [h]
      refine ⟨5854679515581645 / 4503599627370496, ?_, le_refl _, by norm_num⟩
      simp [F64.max, F64.le]
    · rw [h]
      by_cases hc : 5854679515581645 / 4503599627370496 ≤ r
      · exact ⟨r, by simp [F64.max, F64.le, hc], hc, hr⟩
      · exact ⟨5854679515581645 / 4503599627370496, by simp [F64.max, F64.le, hc], le_refl _,
          by norm_num⟩

/-! ## Scheduler in binary64: the interval -/

theorem interval64_step (s : Schedule64) (quality : F64) (e : ℚ)
    (hi : IsPositiveIntegerOrInfinity s.interval) (he : s.easeFactor = F64.fin e)
    (h1 : 5854679515581645 / 4503599627370496 ≤ e) :
    IsPositiveIntegerOrInfinity (updateItemSchedule64 s quality).interval := by
  cases hq : F64.le (F64.fin 3) quality with
  | false =>
    rw [(updateItemSchedule64_fail s quality hq).1]
    exact Or.inr ⟨1, ⟨1, le_refl 1, by norm_num⟩, rfl⟩
  | true =>
    rw [(updateItemSchedule64_pass s quality hq).1]
    split_ifs
    · exact Or.inr ⟨1, ⟨1, le_refl 1, by norm_num⟩, rfl⟩
    · exact Or.inr ⟨6, ⟨6, by norm_num, by norm_num⟩, rfl⟩
    · have hepos : 0 < e := lt_of_lt_of_le (by norm_num) h1
      rw [he]
      rcases hi with hinf | ⟨i, ⟨n, hn, hin⟩, hfin⟩
      · rw [hinf]
        left
        simp [F64.mul, F64.mulInf, hepos, ne_of_gt hepos, F64.round]
      · rw [hfin]
        have hM : F64.mul (F64.fin i) (F64.fin e) = roundF64 (i * e) := rfl
        rw [hM]
        have hi1 : (1 : ℚ) ≤ i := by rw [hin]; exact_mod_cast hn
        have hprod : (2 : ℚ) ^ (0 : ℤ) ≤ i * e := by
          norm_num
          nlinarith
        rcases roundF64_ge_pow (i * e) 0 (le_refl 0) hprod with h | ⟨r, h, hr⟩
        · rw [h]
          exact Or.inl rfl
        · rw [h]
          right
          refine ⟨((⌊r + 1 / 2⌋ : ℤ) : ℚ), ⟨⌊r + 1 / 2⌋, ?_, rfl⟩, rfl⟩
          rw [Int.le_floor]
          norm_num at hr ⊢
          linarith



theorem updateItemSchedule64_invariant (s : Schedule64) (quality : ℚ)
    (h : ScheduleInvariant s) : ScheduleInvariant (updateItemSchedule64 s (F64.fin quality)) := by
  obtain ⟨hi, e, he, h1, h2⟩ := h
  exact ⟨interval64_step s (F64.fin quality) e hi he h1,
    easeFactor64_bounded s quality e he h2⟩

theorem reviews64_invariant (s : Schedule64) (qualities : List ℚ) (h : ScheduleInvariant s) :
    ScheduleInvariant (reviews64 s (qualities.map F64.fin)) := by
  induction qualities generalizing s with
  | nil => exact h
  | cons q qs ih =>
    simp only [reviews64, List.map_cons, List.foldl_cons]
    exact ih _ (updateItemSchedule64_invariant s q h)

theorem scheduleInvariant_of_generated (env : Nat → Nat → Draw) (text : JSString)
    (types : List JSString) (count : Nat) (item : Item)
    (h : item ∈ generateStudyMaterials env text types count) :
    ScheduleInvariant item.schedule64 := by
  obtain ⟨d, type, s, -, -, -, rfl⟩ := mem_generateStudyMaterials env text types count item h
  obtain ⟨h1, h2, -⟩ := buildItem_schedule d type (trim s) (splitSpace (trim s))
  refine ⟨Or.inr ⟨1, ⟨1, le_refl 1, by norm_num⟩, ?_⟩, 5 / 2, ?_, by norm_num, by norm_num⟩
  · simp only [Item.schedule64, h1]
  · simp only [Item.schedule64, h2]

theorem hugeSchedule_overflow :
    (updateItemSchedule64 hugeSchedule (F64.fin 4)).interval = F64.posInf := by
  have hq : F64.le (F64.fin 3) (F64.fin 4) = true := by norm_num [F64.le]
  rw [(updateItemSchedule64_pass hugeSchedule (F64.fin 4) hq).1]
  have e0 : F64.strictEq hugeSchedule.repetitions (F64.fin 0) = false := by
    norm_num [hugeSchedule, F64.strictEq]
  have e1 : F64.strictEq hugeSchedule.repetitions (F64.fin 1) = false := by
    norm_num [hugeSchedule, F64.strictEq]
  simp only [e0, e1, Bool.false_eq_true, if_false]
  have hM : F64.mul hugeSchedule.interval hugeSchedule.easeFactor =
      roundF64 ((2 : ℚ) ^ (1023 : ℤ) * (5 / 2)) := rfl
  rw [hM]
  rcases roundF64_ge_pow ((2 : ℚ) ^ (1023 : ℤ) * (5 / 2)) 1024 (by norm_num) (by norm_num)
    with h | ⟨r, h, hr⟩
  · rw [h]
    rfl
  · have hlt := roundF64_fin_lt _ r h
    rw [abs_lt] at hlt
    linarith [hlt.2]


/-! ## Scheduler in binary64: consecutive Easy ratings -/

theorem easeFactor64_easy (s : Schedule64) (h : s.easeFactor = F64.fin (5 / 2)) :
    (updateItemSchedule64 s (F64.fin 4)).easeFactor = F64.fin (5 / 2) := by
  have hX : F64.sub (F64.fin 5) (F64.fin 4) = F64.fin 1 := by
    show roundF64 (5 + -4) = F64.fin 1
    rw [roundF64_eq (5 + -4) 0 4503599627370496 (by norm_num [abs_of_pos])
      (by norm_num [abs_of_pos]) (by norm_num [abs_lt]) (by norm_num [abs_lt])]
    norm_num
  have hZ : F64.mul (F64.fin 1) (F64.fin (5764607523034235 / 288230376151711744)) =
      F64.fin (5764607523034235 / 288230376151711744) := by
    show roundF64 (1 * (5764607523034235 / 288230376151711744)) = _
    rw [roundF64_eq (1 * (5764607523034235 / 288230376151711744)) (-6) 5764607523034235
      (by norm_num [abs_of_pos]) (by norm_num [abs_of_pos]) (by norm_num [abs_lt])
      (by norm_num [abs_lt])]
    norm_num
  have hY : F64.add (F64.fin (5764607523034235 / 72057594037927936))
      (F64.fin (5764607523034235 / 288230376151711744)) =
      F64.fin (3602879701896397 / 36028797018963968) := by
    show roundF64 (5764607523034235 / 72057594037927936 +
      5764607523034235 / 288230376151711744) = _
    rw [roundF64_eq (5764607523034235 / 72057594037927936 +
      5764607523034235 / 288230376151711744) (-4) 7205759403792794
      (by norm_num [abs_of_pos]) (by norm_num [abs_of_pos]) (by norm_num [abs_lt])
      (by norm_num [abs_lt])]
    norm_num
  have hP : F64.mul (F64.fin 1) (F64.fin (3602879701896397 / 36028797018963968)) =
      F64.fin (3602879701896397 / 36028797018963968) := by
    show roundF64 (1 * (3602879701896397 / 36028797018963968)) = _
    rw [roundF64_eq (1 * (3602879701896397 / 36028797018963968)) (-4) 7205759403792794
      (by norm_num [abs_of_pos]) (by norm_num [abs_of_pos]) (by norm_num [abs_lt])
      (by norm_num [abs_lt])]
    norm_num
  have hD : F64.sub (F64.fin (3602879701896397 / 36028797018963968))
      (F64.fin (3602879701896397 / 36028797018963968)) = F64.fin 0 := by
    show roundF64 (3602879701896397 / 36028797018963968 +
      -(3602879701896397 / 36028797018963968)) = _
    rw [add_neg_cancel, roundF64_zero]
  have hA : F64.add (F64.fin (5 / 2)) (F64.fin 0) = F64.fin (5 / 2) := by
    show roundF64 (5 / 2 + 0) = _
    rw [roundF64_eq (5 / 2 + 0) 1 5629499534213120 (by norm_num [abs_of_pos])
      (by norm_num [abs_of_pos]) (by norm_num [abs_lt]) (by norm_num [abs_lt])]
    norm_num
  rw [updateItemSchedule64_easeFactor, h, double_13, double_01, double_008, double_002, hX, hZ,
    hY, hP, hD, hA]
  norm_num [F64.max, F64.le]

theorem repetitions64_easy (s : Schedule64) (h : F64.le (F64.fin 2) s.repetitions = true) :
    F64.le (F64.fin 2) (updateItemSchedule64 s (F64.fin 4)).repetitions = true := by
  rw [(updateItemSchedule64_pass s (F64.fin 4) (by norm_num [F64.le])).2]
  cases hr : s.repetitions with
  | fin r =>
    rw [hr] at h
    simp only [F64.le, decide_eq_true_eq] at h
    show F64.le (F64.fin 2) (roundF64 (r + 1)) = true
    rcases roundF64_ge_pow (r + 1) 1 (by norm_num) (by norm_num; linarith) with h' | ⟨r', h', hr'⟩
    · rw [h']; rfl
    · rw [h']
      norm_num at hr'
      simp [F64.le, hr']
  | posInf => rfl
  | negInf => rw [hr] at h; simp [F64.le] at h
  | nan => rw [hr] at h; simp [F64.le] at h

theorem floor_half_le_pow (r : ℚ) (n : ℕ) (h : r < (2 : ℚ) ^ n) :
    ((⌊r + 1 / 2⌋ : ℤ) : ℚ) ≤ (2 : ℚ) ^ n := by
  have h1 : ⌊r + 1 / 2⌋ < (2 : ℤ) ^ n + 1 := by
    rw [Int.floor_lt]
    push_cast
    linarith
  have h2 : ⌊r + 1 / 2⌋ ≤ (2 : ℤ) ^ n := Int.lt_add_one_iff.mp h1
  exact_mod_cast h2

theorem easyRun_step (k : Nat) (s : Schedule64) (h : EasyRun k s) :
    EasyRun (k + 1) (updateItemSchedule64 s (F64.fin 4)) := by
  obtain ⟨hr, he, hi⟩ := h
  refine ⟨repetitions64_easy s hr, easeFactor64_easy s he, ?_⟩
  rw [(updateItemSchedule64_pass s (F64.fin 4) (by norm_num [F64.le])).1]
  obtain ⟨e0, e1⟩ := strictEq_of_two_le s.repetitions hr
  simp only [e0, e1, Bool.false_eq_true, if_false, he]
  rcases hi with hinf | ⟨i, hfin, hlo, -⟩
  · rw [hinf]
    left
    norm_num [F64.mul, F64.mulInf, F64.round]
  · rw [hfin]
    have hM : F64.mul (F64.fin i) (F64.fin (5 / 2)) = roundF64 (i * (5 / 2)) := rfl
    rw [hM]
    have hk : (0 : ℚ) < (2 : ℚ) ^ k := by positivity
    have hprod : (2 : ℚ) ^ ((k + 1 : ℕ) : ℤ) ≤ i * (5 / 2) := by
      rw [zpow_natCast, pow_succ]
      linarith
    rcases roundF64_ge_pow (i * (5 / 2)) ((k + 1 : ℕ) : ℤ) (by positivity) hprod
      with h' | ⟨r, h', hr'⟩
    · rw [h']
      exact Or.inl rfl
    · rw [h']
      right
      have hlt := (abs_lt.mp (roundF64_fin_lt _ r h')).2
      rw [zpow_natCast] at hr'
      refine ⟨((⌊r + 1 / 2⌋ : ℤ) : ℚ), rfl, ?_, ?_⟩
      · have : ((2 : ℤ) ^ (k + 1) : ℤ) ≤ ⌊r + 1 / 2⌋ := by
          rw [Int.le_floor]
          push_cast
          linarith
        exact_mod_cast this
      · have hlt' : r < (2 : ℚ) ^ (1024 : ℕ) := by
          have h := hlt
          rw [show (1024 : ℤ) = ((1024 : ℕ) : ℤ) from rfl, zpow_natCast] at h
          exact h
        exact floor_half_le_pow r 1024 hlt'

theorem easyRun_replicate (n k : Nat) (s : Schedule64) (h : EasyRun k s) :
    EasyRun (k + n) (reviews64 s (List.replicate n (F64.fin 4))) := by
  induction n generalizing k s with
  | zero => exact h
  | succ n ih =>
    simp only [reviews64, List.replicate_succ, List.foldl_cons]
    have := ih (k + 1) _ (easyRun_step k s h)
    rw [show k + 1 + n = k + (n + 1) by omega] at this
    exact this

theorem easyRun_fresh : EasyRun 2 (reviews64 freshSchedule [F64.fin 4, F64.fin 4]) := by
  have h1 : F64.add (F64.fin 0) (F64.fin 1) = F64.fin 1 := by
    show roundF64 (0 + 1) = _
    rw [roundF64_eq (0 + 1) 0 4503599627370496 (by norm_num [abs_of_pos])
      (by norm_num [abs_of_pos]) (by norm_num [abs_lt]) (by norm_num [abs_lt])]
    norm_num
  have h2 : F64.add (F64.fin 1) (F64.fin 1) = F64.fin 2 := by
    show roundF64 (1 + 1) = _
    rw [roundF64_eq (1 + 1) 1 4503599627370496 (by norm_num [abs_of_pos])
      (by norm_num [abs_of_pos]) (by norm_num [abs_lt]) (by norm_num [abs_lt])]
    norm_num
  have hq : F64.le (F64.fin 3) (F64.fin 4) = true := by norm_num [F64.le]
  have s1i := (updateItemSchedule64_pass freshSchedule (F64.fin 4) hq).1
  have s1r := (updateItemSchedule64_pass freshSchedule (F64.fin 4) hq).2
  have s1e := easeFactor64_easy freshSchedule rfl
  have hr1 : (updateItemSchedule64 freshSchedule (F64.fin 4)).repetitions = F64.fin 1 := by
    rw [s1r]; exact h1
  have s2i := (updateItemSchedule64_pass (updateItemSchedule64 freshSchedule (F64.fin 4))
    (F64.fin 4) hq).1
  have s2r := (updateItemSchedule64_pass (updateItemSchedule64 freshSchedule (F64.fin 4))
    (F64.fin 4) hq).2
  have s2e := easeFactor64_easy _ s1e
  rw [hr1] at s2i s2r
  rw [h2] at s2r
  refine ⟨?_, s2e, Or.inr ⟨6, ?_, by norm_num, ?_⟩⟩
  rotate_left 2
  · exact le_trans (by norm_num : (6 : ℚ) ≤ (2 : ℚ) ^ (3 : ℕ))
      (pow_le_pow_right₀ (by norm_num) (by norm_num))
  · show F64.le (F64.fin 2) (updateItemSchedule64 (updateItemSchedule64 freshSchedule
      (F64.fin 4)) (F64.fin 4)).repetitions = true
    rw [s2r]
    norm_num [F64.le]
  · show (updateItemSchedule64 (updateItemSchedule64 freshSchedule (F64.fin 4))
      (F64.fin 4)).interval = F64.fin 6
    rw [s2i]
    norm_num [F64.strictEq]

/-- From a fresh item, 1025 consecutive Easy ratings leave the interval `Infinity`. -/
theorem easy_ratings_overflow :
    (reviews64 freshSchedule (List.replicate 1025 (F64.fin 4))).interval = F64.posInf := by
  have hsplit : reviews64 freshSchedule (List.replicate 1025 (F64.fin 4)) =
      reviews64 (reviews64 freshSchedule [F64.fin 4, F64.fin 4])
        (List.replicate 1023 (F64.fin 4)) := by
    have : List.replicate 1025 (F64.fin 4) =
        [F64.fin 4, F64.fin 4] ++ List.replicate 1023 (F64.fin 4) := by
      rw [show (1025 : Nat) = 2 + 1023 by norm_num, List.replicate_add]
      rfl
    rw [this]
    simp only [reviews64, List.foldl_append]
  rw [hsplit]
  obtain ⟨-, -, hi⟩ := easyRun_replicate 1023 2 _ easyRun_fresh
  rcases hi with h | ⟨i, -, hlo, hhi⟩
  · exact h
  · exact absurd (le_trans hlo hhi)
      (not_le.mpr (pow_lt_pow_right₀ (by norm_num) (by norm_num)))

/-- C5 as stated fails: the item of interval `2 ^ 1023`, a positive integer, and ease factor
2.5 is returned by `updateItemSchedule` with interval `Infinity` on a pass, because the
double product `interval * easeFactor` overflows, and `Infinity` is not a positive integer;
a fresh item rated Easy 1025 times in a row ends with interval `Infinity` as well. -/
theorem interval_overflow_counterexample :
    IsPositiveInteger ((2 : ℚ) ^ (1023 : ℤ)) ∧
      hugeSchedule.interval = F64.fin ((2 : ℚ) ^ (1023 : ℤ)) ∧
      hugeSchedule.easeFactor = F64.fin (5 / 2) ∧
      (updateItemSchedule64 hugeSchedule (F64.fin 4)).interval = F64.posInf ∧
      (¬ ∃ i, IsPositiveInteger i ∧
        (updateItemSchedule64 hugeSchedule (F64.fin 4)).interval = F64.fin i) ∧
      (reviews64 freshSchedule (List.replicate 1025 (F64.fin 4))).interval = F64.posInf := by
  refine ⟨⟨2 ^ 1023, by norm_num, by norm_num⟩, rfl, rfl, hugeSchedule_overflow, ?_,
    easy_ratings_overflow⟩
  rw [hugeSchedule_overflow]
  rintro ⟨i, -, hi⟩
  cases hi

/-- C5, amended: the interval is always a positive integer or `Infinity`: a freshly
generated item has interval 1, ease factor 2.5 and repetitions 0; `updateItemSchedule` maps
an item whose interval is a positive integer or `Infinity` and whose ease factor is a
finite number of at least 1.3 to an item whose interval is again a positive integer or
`Infinity` and whose ease factor is at least 1.3, whatever the finite quality; hence every
item reached from a generated one by any sequence of reviews with finite qualities has an
interval that is a positive integer or `Infinity` and a finite ease factor of at least
1.3. -/
theorem interval_positive_integer_or_infinity :
    (∀ (env : Nat → Nat → Draw) (text : JSString) (types : List JSString) (count : Nat)
        (item : Item), item ∈ generateStudyMaterials env text types count →
        item.interval = 1 ∧ item.easeFactor = 5 / 2 ∧ item.repetitions = 0) ∧
      (∀ (s : Schedule64) (quality e : ℚ),
        IsPositiveIntegerOrInfinity s.interval → s.easeFactor = F64.fin e →
        F64.le (double (13 / 10)) (F64.fin e) = true →
        IsPositiveIntegerOrInfinity (updateItemSchedule64 s (F64.fin quality)).interval ∧
          F64.le (double (13 / 10))
            (updateItemSchedule64 s (F64.fin quality)).easeFactor = true) ∧
      (∀ (env : Nat → Nat → Draw) (text : JSString) (types : List JSString) (count : Nat)
        (item : Item) (qualities : List ℚ),
        item ∈ generateStudyMaterials env text types count →
        IsPositiveIntegerOrInfinity
            (reviews64 item.schedule64 (qualities.map F64.fin)).interval ∧
          ∃ e, (reviews64 item.schedule64 (qualities.map F64.fin)).easeFactor = F64.fin e ∧
            F64.le (double (13 / 10)) (F64.fin e) = true) := by
  refine ⟨fun env text types count item h => ?_, fun s quality e hi he h13 => ?_,
    fun env text types count item qualities h => ?_⟩
  · obtain ⟨d, type, s, -, -, -, rfl⟩ := mem_generateStudyMaterials env text types count item h
    exact buildItem_schedule d type (trim s) (splitSpace (trim s))
  · rw [double_13] at h13
    simp only [F64.le, decide_eq_true_eq] at h13
    exact ⟨interval64_step s (F64.fin quality) e hi he h13, easeFactor64_floor s quality e he⟩
  · obtain ⟨hi, e, he, h1, -⟩ := reviews64_invariant item.schedule64 qualities
      (scheduleInvariant_of_generated env text types count item h)
    refine ⟨hi, e, he, ?_⟩
    rw [double_13]
    simp only [F64.le, decide_eq_true_eq]
    exact h1

theorem interval_positive_integer_or_infinity_witness :
    IsPositiveIntegerOrInfinity
        (updateItemSchedule64 ⟨F64.fin 6, F64.fin 2, F64.fin (5 / 2)⟩ (F64.fin 4)).interval ∧
      F64.le (double (13 / 10))
        (updateItemSchedule64 ⟨F64.fin 6, F64.fin 2, F64.fin (5 / 2)⟩
          (F64.fin 4)).easeFactor = true :=
  interval_positive_integer_or_infinity.2.1 ⟨F64.fin 6, F64.fin 2, F64.fin (5 / 2)⟩ 4 (5 / 2)
    (Or.inr ⟨6, ⟨6, by norm_num, by norm_num⟩, rfl⟩) rfl
    (by rw [double_13]; norm_num [F64.le])

/-! ## Trimming -/

theorem isTrimOf_trim (s : JSString) : IsTrimOf (trim s) s := by
  have h1 := List.takeWhile_append_dropWhile isWhiteSpace s
  have h2 := List.takeWhile_append_dropWhile isWhiteSpace (s.dropWhile isWhiteSpace).reverse
  refine ⟨s.takeWhile isWhiteSpace,
    ((s.dropWhile isWhiteSpace).reverse.takeWhile isWhiteSpace).reverse, ?_, ?_, ?_, ?_, ?_⟩
  · unfold trim
    rw [List.append_assoc, ← List.reverse_append, h2, List.reverse_reverse, h1]
  · intro c hc
    exact (List.mem_takeWhile_imp hc)
  · intro c hc
    exact (List.mem_takeWhile_imp (List.mem_reverse.mp hc))
  · intro c hc
    have ht : s.dropWhile isWhiteSpace = trim s ++
        ((s.dropWhile isWhiteSpace).reverse.takeWhile isWhiteSpace).reverse := by
      unfold trim
      rw [← List.reverse_append, h2, List.reverse_reverse]
    have := List.head?_dropWhile_not isWhiteSpace s
    rw [ht, List.head?_append, hc] at this
    simpa using this
  · intro c hc
    unfold trim at hc
    rw [List.getLast?_reverse] at hc
    have := List.head?_dropWhile_not isWhiteSpace (s.dropWhile isWhiteSpace).reverse
    rw [hc] at this
    simpa using this

/-! ## Item generator: a pool of one sentence -/

theorem generateStudyMaterials_single (env : Nat → Nat → Draw) (text s type : JSString)
    (hpool : eligibleSentences text = [s]) (hwords : 5 < (splitSpace (trim s)).length) :
    generateStudyMaterials env text [type] 1 =
      [buildItem (env 0 0) type (trim s) (splitSpace (trim s))] := by
  have hipt : itemsPerType 1 [type] = 1 := by simp [itemsPerType]
  have hidx : randomIndex (env 0 0).pick 1 = 0 := by
    have := randomIndex_lt (env 0 0).pick 1 (by norm_num)
    omega
  rw [generateStudyMaterials_eq, hpool, hipt]
  simp [List.enum, List.enumFrom, itemsForType, List.range_succ, stepItem, hidx, hwords]

/-- C9: for every multiple-choice item that `generateStudyMaterials` builds, and every
outcome of the shuffle, `options` has exactly four entries, `correctAnswer` is the source
sentence trimmed, that is, the fragment without the white space at its two ends, verbatim,
and exactly one entry of `options` equals `correctAnswer`. -/
theorem mcq_options (env : Nat → Nat → Draw) (text : JSString) (types : List JSString)
    (count : Nat) (item : Item) (h : item ∈ generateStudyMaterials env text types count)
    (hty : item.type = lit "mcq") :
    ∃ s ∈ eligibleSentences text, ∃ a opts, IsTrimOf a s ∧
      item.correctAnswer = JSVal.str a ∧ item.options = some opts ∧ opts.length = 4 ∧
      (opts.filter (fun o => decide (o = a))).length = 1 := by
  obtain ⟨d, type, s, -, hs, hw, rfl⟩ := mem_generateStudyMaterials env text types count item h
  rw [buildItem_type] at hty
  subst hty
  obtain ⟨hopt, hans⟩ := buildItem_mcq d (trim s) (splitSpace (trim s))
  obtain ⟨h1, h2, h3⟩ := sentence_ne_decoys (trim s) hw
  have hperm := (d.shuffle [trim s, keywordOf (splitSpace (trim s)) ++ lit " is unrelated",
    lit "Opposite meaning", lit "Different concept"]).property
  refine ⟨s, hs, trim s, _, isTrimOf_trim s, hans, hopt, ?_, ?_⟩
  · rw [hperm.length_eq]
    rfl
  · rw [(hperm.filter _).length_eq]
    simp [List.filter_cons, h1.symm, h2.symm, h3.symm]

theorem mcq_options_witness :
    generateStudyMaterials sampleEnv spacedText [lit "mcq"] 1 =
        [buildItem sampleDraw (lit "mcq") catSentence (splitSpace catSentence)] ∧
      (buildItem sampleDraw (lit "mcq") catSentence (splitSpace catSentence)).correctAnswer =
        JSVal.str (lit "This cat really is quite a pet") ∧
      ∃ s ∈ eligibleSentences spacedText, ∃ a opts, IsTrimOf a s ∧
        (buildItem sampleDraw (lit "mcq") catSentence (splitSpace catSentence)).correctAnswer =
          JSVal.str a ∧
        (buildItem sampleDraw (lit "mcq") catSentence (splitSpace catSentence)).options =
          some opts ∧ opts.length = 4 ∧
        (opts.filter (fun o => decide (o = a))).length = 1 := by
  have hpool : eligibleSentences spacedText =
      [[32, 10, 9] ++ lit "This cat really is quite a pet" ++ [160, 32]] := by decide
  have htrim : trim ([32, 10, 9] ++ lit "This cat really is quite a pet" ++ [160, 32]) =
      catSentence := by decide
  have hgen : generateStudyMaterials sampleEnv spacedText [lit "mcq"] 1 =
      [buildItem sampleDraw (lit "mcq") catSentence (splitSpace catSentence)] := by
    rw [generateStudyMaterials_single sampleEnv spacedText _ (lit "mcq") hpool
      (by rw [htrim]; decide), htrim]
    rfl
  exact ⟨hgen, (buildItem_mcq sampleDraw catSentence (splitSpace catSentence)).2,
    mcq_options sampleEnv spacedText [lit "mcq"] 1
      (buildItem sampleDraw (lit "mcq") catSentence (splitSpace catSentence))
      (by rw [hgen]; exact List.mem_singleton.mpr rfl) (buildItem_type _ _ _ _)⟩

/-! ## Item generator: consecutive spaces -/

/-- C12 at a failing input: the text `The  quick  brown fox.` has one eligible sentence, of
four words, yet `generateStudyMaterials` returns an item for it: `split(' ')` yields six
pieces, two of them empty, the guard `words.length > 5` passes, and the keyword, the piece
at index 3, is the empty string. -/
theorem generateStudyMaterials_doubleSpaceText :
    eligibleSentences doubleSpaceText = [lit "The  quick  brown fox"] ∧
      wordsOf (lit "The  quick  brown fox") =
        [lit "The", lit "quick", lit "brown", lit "fox"] ∧
      splitSpace (lit "The  quick  brown fox") =
        [lit "The", [], lit "quick", [], lit "brown", lit "fox"] ∧
      keywordOf (splitSpace (lit "The  quick  brown fox")) = [] ∧
      (generateStudyMaterials sampleEnv doubleSpaceText [lit "flashcard"] 1).map
          (fun item => (item.question, item.answer)) =
        [(some (lit "What is  in the context of this topic?"),
          some (lit "The  quick  brown fox"))] := by
  have hpool : eligibleSentences doubleSpaceText = [lit "The  quick  brown fox"] := by decide
  have htrim : trim (lit "The  quick  brown fox") = lit "The  quick  brown fox" := by decide
  refine ⟨hpool, by decide, by decide, by decide, ?_⟩
  rw [generateStudyMaterials_single sampleEnv doubleSpaceText _ (lit "flashcard") hpool
    (by rw [htrim]; decide), htrim]
  simp only [List.map_cons, List.map_nil, sampleEnv]
  have hq : (buildItem sampleDraw (lit "flashcard") (lit "The  quick  brown fox")
      (splitSpace (lit "The  quick  brown fox"))).question =
      some (lit "What is  in the context of this topic?") := by
    simp only [buildItem, if_true]
    decide
  have ha : (buildItem sampleDraw (lit "flashcard") (lit "The  quick  brown fox")
      (splitSpace (lit "The  quick  brown fox"))).answer =
      some (lit "The  quick  brown fox") := by
    simp only [buildItem, if_true]
  rw [hq, ha]

end SmartStudy
